import Mathlib

/-!
Shallow embedding of the schedule-email parser (`run.py`) and proofs about it.

The embedding follows the source closely:
* Python `datetime.date` becomes the `Date` structure below, with the
  proleptic-Gregorian ordinal (`Date.toOrdinal`, Python `date.toordinal`)
  used for `timedelta` arithmetic and date differences.  The `date(y, m, d)`
  constructor, which raises `ValueError` on out-of-range input
  (including years outside `1..9999`), becomes the `Option`-valued `mkDate`.
  Date comparison in Python is by calendar order, which on valid dates
  coincides with ordinal order; we define `dateLe`/`dateLt` ordinally.
* `date + timedelta(days=n)` becomes `addDays`; Python raises
  `OverflowError` when the result leaves the representable range, which we
  model by returning `none` in that case (the check is on the final result,
  as in CPython).
* Regular-expression matching is hand-translated into executable matchers
  over `List Char` that reproduce the leftmost-match, ordered-alternation,
  greedy/backtracking semantics of the specific patterns of `run.py`.
-/

set_option maxRecDepth 8000

namespace WorkScheduleBot

/-- Gregorian leap-year test, as in Python's `datetime` module
(`year % 4 == 0 and (year % 100 != 0 or year % 400 == 0)`). -/
def isLeap (y : Int) : Bool :=
  y % 4 == 0 && (y % 100 != 0 || y % 400 == 0)

/-- `_days_in_month`: number of days of month `m` (1-12) of year `y`.
Returns 0 for an out-of-range month index. -/
def daysInMonth (y : Int) (m : Nat) : Nat :=
  match m with
  | 1 => 31 | 2 => if isLeap y then 29 else 28 | 3 => 31
  | 4 => 30 | 5 => 31 | 6 => 30 | 7 => 31 | 8 => 31
  | 9 => 30 | 10 => 31 | 11 => 30 | 12 => 31
  | _ => 0

/-- Days before the first of month `m` within a year of the given leap-ness
(Python `_days_before_month`). -/
def daysBeforeMonth (leap : Bool) (m : Nat) : Nat :=
  match m with
  | 1 => 0 | 2 => 31 | 3 => if leap then 60 else 59
  | 4 => if leap then 91 else 90 | 5 => if leap then 121 else 120
  | 6 => if leap then 152 else 151 | 7 => if leap then 182 else 181
  | 8 => if leap then 213 else 212 | 9 => if leap then 244 else 243
  | 10 => if leap then 274 else 273 | 11 => if leap then 305 else 304
  | 12 => if leap then 335 else 334
  | _ => 0

/-- Days in all years strictly before year `y`, counting from year 1
(Python `_days_before_year`). -/
def daysBeforeYear (y : Int) : Int :=
  365 * (y - 1) + (y - 1) / 4 - (y - 1) / 100 + (y - 1) / 400

/-- A calendar date, mirroring Python `datetime.date` triples. -/
structure Date where
  year : Int
  month : Nat
  day : Nat
  deriving DecidableEq, Repr

/-- The month and day are in range for the year (no year bound). -/
def Date.validYMD (d : Date) : Prop :=
  1 ≤ d.month ∧ d.month ≤ 12 ∧ 1 ≤ d.day ∧ d.day ≤ daysInMonth d.year d.month

instance (d : Date) : Decidable d.validYMD := by
  unfold Date.validYMD; infer_instance

/-- Exactly the check of the Python `date` constructor: month/day in range
and `MINYEAR = 1 ≤ year ≤ 9999 = MAXYEAR`. -/
def Date.pyValid (d : Date) : Prop :=
  d.validYMD ∧ 1 ≤ d.year ∧ d.year ≤ 9999

instance (d : Date) : Decidable d.pyValid := by
  unfold Date.pyValid; infer_instance

/-- `datetime.date(y, m, d)`: `some` of the date when in range, `none`
standing for the `ValueError` the constructor raises otherwise. -/
def mkDate (y : Int) (m : Nat) (d : Nat) : Option Date :=
  if (Date.mk y m d).pyValid then some (Date.mk y m d) else none

/-- Python `date.toordinal`: day count with `date(1,1,1).toordinal() = 1`. -/
def Date.toOrdinal (d : Date) : Int :=
  daysBeforeYear d.year + (daysBeforeMonth (isLeap d.year) d.month : Int) + (d.day : Int)

/-- Python `date.weekday()`: 0 = Monday. -/
def Date.weekday (d : Date) : Int :=
  (d.toOrdinal - 1) % 7

/-- Python date comparison `a <= b` (calendar order; on valid dates this is
ordinal order, which is how we state it). -/
def dateLe (a b : Date) : Bool :=
  a.toOrdinal ≤ b.toOrdinal

/-- Python date comparison `a < b`. -/
def dateLt (a b : Date) : Bool :=
  a.toOrdinal < b.toOrdinal

/-- The successor day in the proleptic Gregorian calendar (total; the
Python range check is applied by `addDays`). -/
def succDay (d : Date) : Date :=
  if d.day < daysInMonth d.year d.month then ⟨d.year, d.month, d.day + 1⟩
  else if d.month < 12 then ⟨d.year, d.month + 1, 1⟩
  else ⟨d.year + 1, 1, 1⟩

/-- The predecessor day (total). -/
def predDay (d : Date) : Date :=
  if 1 < d.day then ⟨d.year, d.month, d.day - 1⟩
  else if 1 < d.month then ⟨d.year, d.month - 1, daysInMonth d.year (d.month - 1)⟩
  else ⟨d.year - 1, 12, 31⟩

/-- `n`-fold application of `succDay`. -/
def succIter : Nat → Date → Date
  | 0, d => d
  | n + 1, d => succIter n (succDay d)

/-- `n`-fold application of `predDay`. -/
def predIter : Nat → Date → Date
  | 0, d => d
  | n + 1, d => predIter n (predDay d)

/-- `d + timedelta(days := n)` for `n ≥ 0`: CPython computes the result from
the ordinal and raises `OverflowError` (here `none`) when the result falls
outside years `1..9999`. -/
def addDays (d : Date) (n : Nat) : Option Date :=
  let r := succIter n d
  if 1 ≤ r.year ∧ r.year ≤ 9999 then some r else none

/-- `d - timedelta(days := n)` for `n ≥ 0`, with the same range check. -/
def subDays (d : Date) (n : Nat) : Option Date :=
  let r := predIter n d
  if 1 ≤ r.year ∧ r.year ≤ 9999 then some r else none

/-! ### String primitives

Python string and regex operations, restricted to the ASCII text this
parser processes, over `List Char`. -/

/-- Character strings; `String` in Lean is a wrapper around this. -/
abbrev Chars := List Char

/-- Python regex `\s` (ASCII range): space, tab, LF, CR, VT, FF. -/
def pyIsSpace (c : Char) : Bool :=
  c == ' ' || c == '\t' || c == '\n' || c == '\r' || c == '\x0b' || c == '\x0c'

/-- Python regex `\w` over ASCII (used for `\b` word boundaries). -/
def isWordCh (c : Char) : Bool := c.isAlpha || c.isDigit || c == '_'

def isWordOpt : Option Char → Bool
  | some c => isWordCh c
  | none => false

def lowerStr (cs : Chars) : Chars := cs.map Char.toLower

def upperStr (cs : Chars) : Chars := cs.map Char.toUpper

/-- Python `str.strip()` (whitespace at both ends). -/
def stripChars (cs : Chars) : Chars :=
  ((cs.dropWhile (pyIsSpace ·)).reverse.dropWhile (pyIsSpace ·)).reverse

/-- Python `str.strip(set)` for an explicit character set. -/
def stripSet (set : Chars) (cs : Chars) : Chars :=
  ((cs.dropWhile (set.contains ·)).reverse.dropWhile (set.contains ·)).reverse

/-- Split at every newline, keeping empty pieces (`"a\n" ↦ ["a", ""]`). -/
def splitOnNl : Chars → List Chars
  | [] => [[]]
  | c :: cs =>
    if c == '\n' then [] :: splitOnNl cs
    else match splitOnNl cs with
      | l :: ls => (c :: l) :: ls
      | [] => [[c]]

/-- Python `str.splitlines()` for `\n`-separated text: like `splitOnNl` but
with no empty piece after a trailing newline (`"a\n" ↦ ["a"]`, `"" ↦ []`).
The given documents use only `\n` line breaks. -/
def splitLinesCh (cs : Chars) : List Chars :=
  let ls := splitOnNl cs
  if ls.getLast? = some [] then ls.dropLast else ls

/-- Python `str.split()` with no argument: tokens between whitespace runs. -/
def splitWsAux : Chars → Chars → List Chars
  | [], acc => if acc.isEmpty then [] else [acc.reverse]
  | c :: cs, acc =>
    if pyIsSpace c then
      if acc.isEmpty then splitWsAux cs [] else acc.reverse :: splitWsAux cs []
    else splitWsAux cs (c :: acc)

def splitWs (cs : Chars) : List Chars := splitWsAux cs []

/-- Python `" ".join(ts)`. -/
def joinSpace (ts : List Chars) : Chars := List.intercalate [' '] ts

/-- First index of `needle` as a substring of the remaining text
(Python `str.find`, restricted to successful results). -/
def findSub (needle : Chars) : Chars → Option Nat
  | [] => if needle.isEmpty then some 0 else none
  | c :: t =>
    if needle.isPrefixOf (c :: t) then some 0
    else (findSub needle t).map (· + 1)

/-- Python `needle in hay`. -/
def containsSub (hay needle : Chars) : Bool := (findSub needle hay).isSome

/-- Case-insensitive prefix test (ASCII). -/
def isPrefixCI : Chars → Chars → Bool
  | [], _ => true
  | _ :: _, [] => false
  | a :: as, b :: bs => (a.toLower == b.toLower) && isPrefixCI as bs

/-- `re.search(r"\b<lit>\b", hay)` for a literal pattern `lit` with no regex
metacharacters (as `re.escape` guarantees in the source): the first index
where `lit` occurs with word boundaries on both sides, case-insensitively
when `ci` is set.  `\b` holds between two positions whose word-character
status differs, with out-of-range counting as non-word. -/
def wordBoundSearchAux (ci : Bool) (lit : Chars) : Option Char → Chars → Nat → Option Nat
  | prev, hay, i =>
    let matched := if ci then isPrefixCI lit hay else lit.isPrefixOf hay
    let okStart := isWordOpt prev != isWordOpt hay.head?
    let okEnd := isWordOpt lit.getLast? != isWordOpt ((hay.drop lit.length).head?)
    if matched && okStart && okEnd then some i
    else match hay with
      | [] => none
      | c :: t => wordBoundSearchAux ci lit (some c) t (i + 1)

def wordBoundSearch (ci : Bool) (lit hay : Chars) : Option Nat :=
  wordBoundSearchAux ci lit none hay 0

/-- `int` of a digit string (always applied to at least one digit here;
Python `int("")` would raise instead of giving 0, but every call site
extracts the digits of a regex group that contains `\d{1,2}`). -/
def natOfDigits (cs : Chars) : Nat :=
  cs.foldl (fun a c => a * 10 + (c.toNat - 48)) 0

/-- `re.sub(r"\D", "", s)`: keep only the digits. -/
def digitsOf (s : Chars) : Chars := s.filter (·.isDigit)

/-- Little-endian digits of `n`; the first argument is structural fuel
(`n` itself suffices, since the value shrinks by a factor of 10 each
step), keeping the definition kernel-reducible. -/
def natToCharsAux : Nat → Nat → Chars
  | 0, n => [Char.ofNat (48 + n % 10)]
  | fuel + 1, n =>
    if n < 10 then [Char.ofNat (48 + n)]
    else Char.ofNat (48 + n % 10) :: natToCharsAux fuel (n / 10)

/-- Decimal rendering of a natural number (Python `f"{h}"` for an `int`). -/
def natToChars (n : Nat) : Chars := (natToCharsAux n n).reverse

/-- Python `str.capitalize()`: first character upper-cased, rest lowered. -/
def capitalizeStr : Chars → Chars
  | [] => []
  | c :: t => c.toUpper :: lowerStr t

/-- Python `str.replace(" ", "")`. -/
def removeSpaces (cs : Chars) : Chars := cs.filter (· != ' ')

/-! ### Regex matchers

Hand translations of the patterns of `run.py`, reproducing leftmost search,
ordered alternation and the greedy/backtracking behaviour of each pattern.
Notes on determinism used below: a `\s+`/`\s*` that is directly followed by
a required non-space item (a digit, a letter, a `-`) can only succeed with
the maximal run of whitespace, so no backtracking over its length is
needed in those places. -/

/-- First case-insensitive prefix match from a list of literal alternatives,
returning the text as written and the remainder. -/
def tryNames : List Chars → Chars → Option (Chars × Chars)
  | [], _ => none
  | n :: ns, cs =>
    if isPrefixCI n cs then some (cs.take n.length, cs.drop n.length)
    else tryNames ns cs

def weekdayNames : List Chars :=
  ["Monday".data, "Tuesday".data, "Wednesday".data, "Thursday".data,
   "Friday".data, "Saturday".data, "Sunday".data]

/-- `DAY_HEADER_RE.match(line)`:
`^\s*(?P<daynum>\d{1,2})\s+(?P<weekday>Monday|...|Sunday)\b(?P<rest>.*)$`
with `re.IGNORECASE` (the weekday alternatives are prefix-disjoint, so
their order does not matter).  Returns `(daynum, weekday-as-written,
rest)`.  `\d{1,2}` is greedy: two digits are tried before one.  The lines
this is applied to contain no newline, so `.*` is the whole remainder. -/
def dayHeaderFrom (daynum : Nat) (rest : Chars) : Option (Nat × Chars × Chars) :=
  let ws := rest.takeWhile (pyIsSpace ·)
  if ws.isEmpty then none
  else
    let afterWs := rest.drop ws.length
    match tryNames weekdayNames afterWs with
    | none => none
    | some (wk, rem) =>
      if isWordOpt rem.head? then none else some (daynum, wk, rem)

def dayHeaderMatch (line : Chars) : Option (Nat × Chars × Chars) :=
  match line.dropWhile (pyIsSpace ·) with
  | c1 :: c2 :: rest =>
    if c1.isDigit && c2.isDigit then
      match dayHeaderFrom (10 * (c1.toNat - 48) + (c2.toNat - 48)) rest with
      | some r => some r
      | none => dayHeaderFrom (c1.toNat - 48) (c2 :: rest)
    else if c1.isDigit then dayHeaderFrom (c1.toNat - 48) (c2 :: rest)
    else none
  | _ => none

/-- An `AM`/`PM`/`am`/`pm` alternative at the head (any capitalisation,
since the enclosing patterns carry `re.IGNORECASE`). -/
def matchMeridiem : Chars → Option (Chars × Chars)
  | a :: b :: t =>
    if (a.toLower == 'a' || a.toLower == 'p') && b.toLower == 'm' then
      some ([a, b], t)
    else none
  | _ => none

/-- Candidates for the trailing `\s*(?:AM|PM|am|pm)?` of `TIME_TOKEN`
starting from `k` consumed spaces (of the whitespace run `ws`) down to 0,
meridiem-present before meridiem-absent at each length — the regex
backtracking order. -/
def spaceMerBase (tok ws tail : Chars) (k : Nat) : List (Chars × Chars) :=
  let consumed := ws.take k
  let tailK := ws.drop k ++ tail
  (match matchMeridiem tailK with
   | some (m, t2) => [(tok ++ consumed ++ m, t2)]
   | none => []) ++ [(tok ++ consumed, tailK)]

def spaceMerCandsAux (tok ws tail : Chars) : Nat → List (Chars × Chars)
  | 0 => spaceMerBase tok ws tail 0
  | k + 1 => spaceMerBase tok ws tail (k + 1) ++ spaceMerCandsAux tok ws tail k

/-- All prefix matches of
`TIME_TOKEN = (?:\d{1,2}(?::\d{2})?|\d{3,4})\s*(?:AM|PM|am|pm)?`
as (matched text, remainder) pairs in regex backtracking order: first
alternative before second, two digits before one (and four before three),
colon group present before absent, then the `\s*`/meridiem variants. -/
def timeTokenCands (cs : Chars) : List (Chars × Chars) :=
  let core : List (Chars × Chars) :=
    match cs with
    | [] => []
    | c1 :: t1 =>
      if c1.isDigit then
        let one : List (Chars × Chars) := [([c1], t1)]
        let oneColon : List (Chars × Chars) :=
          match t1 with
          | ':' :: m1 :: m2 :: t2 =>
            if m1.isDigit && m2.isDigit then [([c1, ':', m1, m2], t2)] else []
          | _ => []
        match t1 with
        | [] => oneColon ++ one
        | c2 :: t2 =>
          if c2.isDigit then
            let twoColon : List (Chars × Chars) :=
              match t2 with
              | ':' :: m1 :: m2 :: t3 =>
                if m1.isDigit && m2.isDigit then [([c1, c2, ':', m1, m2], t3)] else []
              | _ => []
            let alt1 := twoColon ++ [([c1, c2], t2)] ++ oneColon ++ one
            let alt2 : List (Chars × Chars) :=
              match t2 with
              | c3 :: t3 =>
                if c3.isDigit then
                  (match t3 with
                   | c4 :: t4 => if c4.isDigit then [([c1, c2, c3, c4], t4)] else []
                   | [] => []) ++ [([c1, c2, c3], t3)]
                else []
              | [] => []
            alt1 ++ alt2
          else oneColon ++ one
      else []
  core.flatMap (fun p =>
    let ws := p.2.takeWhile (pyIsSpace ·)
    spaceMerCandsAux p.1 ws (p.2.drop ws.length) ws.length)

/-- A `TIME_ROW_RE` match attempt anchored at the head:
`(?P<t1>TIME_TOKEN)\s*-\s*(?P<t2>TIME_TOKEN)\s+(?P<tail>.+)$`.
The `\s*` before and after `-` are deterministic (next required item is
non-space); the final `\s+ .+$` succeeds with all trailing whitespace
consumed when a non-space character remains, and otherwise backtracks one
space so that `.+` can match it. -/
def timeRowMatchAt (cs : Chars) : Option (Chars × Chars × Chars) :=
  (timeTokenCands cs).findSome? (fun p1 =>
    let r1 := p1.2.dropWhile (pyIsSpace ·)
    match r1 with
    | '-' :: r2 =>
      let r3 := r2.dropWhile (pyIsSpace ·)
      (timeTokenCands r3).findSome? (fun p2 =>
        let sp := p2.2.takeWhile (pyIsSpace ·)
        let after := p2.2.drop sp.length
        if sp.isEmpty then none
        else if !after.isEmpty then some (p1.1, p2.1, after)
        else if 2 ≤ sp.length then some (p1.1, p2.1, [sp.getLastD ' '])
        else none)
    | _ => none)

/-- `TIME_ROW_RE.search(line)`: leftmost match wins. -/
def timeRowSearch : Chars → Option (Chars × Chars × Chars)
  | [] => none
  | c :: t =>
    match timeRowMatchAt (c :: t) with
    | some r => some r
    | none => timeRowSearch t

/-- A `TIME_RANGE_RE` (`TIME_TOKEN\s*-\s*TIME_TOKEN`) match attempt at the
head, returning the number of characters consumed. -/
def timeRangeMatchAt (cs : Chars) : Option Nat :=
  (timeTokenCands cs).findSome? (fun p1 =>
    let r1 := p1.2.dropWhile (pyIsSpace ·)
    match r1 with
    | '-' :: r2 =>
      let r3 := r2.dropWhile (pyIsSpace ·)
      (timeTokenCands r3).findSome? (fun p2 => some (cs.length - p2.2.length))
    | _ => none)

/-- `len(TIME_RANGE_RE.findall(body))`: non-overlapping leftmost matches.
A match always consumes at least one character (it contains `-`), so
`max · 1` below only guards the recursion. -/
def countTimeRanges : Chars → Nat
  | [] => 0
  | c :: t =>
    match timeRangeMatchAt (c :: t) with
    | some len => 1 + countTimeRanges ((c :: t).drop (max len 1))
    | none => countTimeRanges t
  termination_by cs => cs.length
  decreasing_by all_goals simp [List.length_drop] <;> omega

/-! ### `WINDOW_RE` and `parse_window` -/

def ordinalSuffixes : List Chars := ["st".data, "nd".data, "rd".data, "th".data]

/-- `(st|nd|rd|th)?`, case-insensitive: with-suffix candidate first
(greedy `?`), then without.  The alternatives are prefix-disjoint. -/
def suffixCands (cs : Chars) : List (Chars × Chars) :=
  (match tryNames ordinalSuffixes cs with
   | some (s, r) => [(s, r)]
   | none => []) ++ [([], cs)]

/-- `\d{1,2}` greedy: two digits before one. -/
def digits12Cands : Chars → List (Chars × Chars)
  | [] => []
  | [c1] => if c1.isDigit then [([c1], [])] else []
  | c1 :: c2 :: t =>
    if c1.isDigit && c2.isDigit then [([c1, c2], t), ([c1], c2 :: t)]
    else if c1.isDigit then [([c1], c2 :: t)]
    else []

/-- The part `[A-Za-z]+\s+\d{1,2}(st|nd|rd|th)?\s*-\s*(?P<end_day>\d{1,2}(st|nd|rd|th)?)`
of `WINDOW_RE` after the optional leading word.  Returns the number of
characters belonging to the `start` group and the `end_day` group text.
`[A-Za-z]+` and the `\s+`/`\s*` items are deterministic here (each is
followed by a required item that cannot extend them). -/
def windowMainPart (cs : Chars) : Option (Nat × Chars) :=
  let al := cs.takeWhile (·.isAlpha)
  if al.isEmpty then none
  else
    let r1 := cs.drop al.length
    let ws := r1.takeWhile (pyIsSpace ·)
    if ws.isEmpty then none
    else
      let r2 := r1.drop ws.length
      (digits12Cands r2).findSome? (fun dg =>
        (suffixCands dg.2).findSome? (fun sf =>
          let w1 := sf.2.takeWhile (pyIsSpace ·)
          match sf.2.drop w1.length with
          | '-' :: r5 =>
            let w2 := r5.takeWhile (pyIsSpace ·)
            let r6 := r5.drop w2.length
            (digits12Cands r6).findSome? (fun ed =>
              (suffixCands ed.2).findSome? (fun es =>
                some (al.length + ws.length + dg.1.length + sf.1.length,
                  ed.1 ++ es.1)))
          | _ => none))

/-- The `start` group with its optional leading word
`([A-Za-z]+\.?\s+)?`: present first (greedy `?`), then absent.  Returns
(start group text, end_day group text). -/
def windowStartGroup (r4 : Chars) : Option (Chars × Chars) :=
  let gTry : Option (Chars × Chars) :=
    let ga := r4.takeWhile (·.isAlpha)
    if ga.isEmpty then none
    else
      let r5 := r4.drop ga.length
      let dotLen : Nat := match r5 with | '.' :: _ => 1 | _ => 0
      let r6 := r5.drop dotLen
      let ws := r6.takeWhile (pyIsSpace ·)
      if ws.isEmpty then none
      else
        match windowMainPart (r6.drop ws.length) with
        | some (len, ed) => some (r4.take (ga.length + dotLen + ws.length + len), ed)
        | none => none
  match gTry with
  | some r => some r
  | none =>
    match windowMainPart r4 with
    | some (len, ed) => some (r4.take len, ed)
    | none => none

/-- A `WINDOW_RE` match attempt anchored at the head:
`schedule\s+for\s+(?P<start>...)\s*-\s*(?P<end_day>...)` (IGNORECASE). -/
def windowMatchAt (cs : Chars) : Option (Chars × Chars) :=
  if isPrefixCI "schedule".data cs then
    let r1 := cs.drop 8
    let ws1 := r1.takeWhile (pyIsSpace ·)
    if ws1.isEmpty then none
    else
      let r2 := r1.drop ws1.length
      if isPrefixCI "for".data r2 then
        let r3 := r2.drop 3
        let ws2 := r3.takeWhile (pyIsSpace ·)
        if ws2.isEmpty then none
        else windowStartGroup (r3.drop ws2.length)
      else none
  else none

/-- `WINDOW_RE.search(text)`: leftmost match. -/
def windowSearchCh : Chars → Option (Chars × Chars)
  | [] => none
  | c :: t =>
    match windowMatchAt (c :: t) with
    | some r => some r
    | none => windowSearchCh t

/-- The `MONTHS` table, in dict insertion order (January..December). -/
def monthNames : List (Chars × Nat) :=
  [("january".data, 1), ("february".data, 2), ("march".data, 3),
   ("april".data, 4), ("may".data, 5), ("june".data, 6), ("july".data, 7),
   ("august".data, 8), ("september".data, 9), ("october".data, 10),
   ("november".data, 11), ("december".data, 12)]

def month_from_text (s : Chars) : Option Nat :=
  let sL := lowerStr s
  match monthNames.findSome? (fun p => if containsSub sL p.1 then some p.2 else none) with
  | some i => some i
  | none =>
    if containsSub sL "sept".data || containsSub sL "sep".data then some 9 else none

/-- `(date(y, month, 1) + timedelta(days=40)).replace(day=1) - timedelta(days=1)`:
the code's way of producing the last day of month `month` of year `y`.
`replace(day=1)` revalidates through the `date` constructor. -/
def lastDayFormula (y : Int) (m : Nat) : Option Date := do
  let a ← mkDate y m 1
  let b ← addDays a 40
  let c ← mkDate b.year b.month 1
  subDays c 1

/-- `get_week_start(dt)`: `dt - timedelta(days=dt.weekday())` at midnight.
Only the date part is ever used downstream, so the time-of-day and
timezone adjustments of the source are not modelled. -/
def get_week_start (now : Date) : Option Date :=
  subDays now now.weekday.toNat

/-- Lines 195-207 of `parse_window`: resolving the window end from the
already-resolved start `s`, the month number and the end-day number; the
`try/except` clamps fall back to the last-day formula, and an end before
the start rolls to the next month. -/
def resolveEnd (s : Date) (month : Nat) (end_day : Nat) : Option Date := do
  let e0 ← match mkDate s.year month end_day with
    | some e => some e
    | none => lastDayFormula s.year month
  if dateLt e0 s then
    let nmY := s.year + (if month = 12 then 1 else 0)
    let nmM := if month = 12 then 1 else month + 1
    match mkDate nmY nmM end_day with
    | some e1 => some e1
    | none => lastDayFormula nmY nmM
  else pure e0

/-- `parse_window(text, now)`.  `none` models an uncaught exception
(`ValueError` from a `date` constructor outside a `try`, or
`OverflowError` from date arithmetic). -/
def parse_window (text : Chars) (now : Date) : Option (Date × Date) :=
  match windowSearchCh text with
  | none => do
    let ws ← get_week_start now
    let e ← addDays ws 6
    pure (ws, e)
  | some (startStr, endDayStr) =>
    let month := (month_from_text startStr).getD now.month
    let start_day := natOfDigits (digitsOf startStr)
    do
      let s0 ← mkDate now.year month start_day
      let s1 ← if s0.toOrdinal - now.toOrdinal > 120 then
          mkDate (now.year - 1) month start_day
        else pure s0
      let s ← if now.toOrdinal - s1.toOrdinal > 250 then
          mkDate (now.year + 1) month start_day
        else pure s1
      let e ← resolveEnd s month (natOfDigits (digitsOf endDayStr))
      pure (s, e)

/-! ### Field splitter (`first_site_token`, `split_people_task`) -/

/-- `KNOWN_SITES` sorted by length, longest first.  Python sorts the set
with a stable sort, so names of equal length keep the set's iteration
order, which is unspecified (hash-dependent); the fixed tie order chosen
here is one of the possible orders, and no claim below depends on it. -/
def sitesOrdered : List Chars :=
  ["Sierra Vista".data, "Aeroterra".data, "Guadalupe".data, "Superior".data,
   "Chandler".data, "Tempe".data, "CTEC".data, "Mesa".data]

def first_site_token (tail : Chars) : Chars × Chars :=
  match sitesOrdered.findSome? (fun site =>
      match wordBoundSearch false site tail with
      | some i => if i < 40 then some (site, i) else none
      | none => none) with
  | some (site, i) =>
    let pre := stripChars (tail.take i)
    let post := stripChars (tail.drop (i + site.length))
    let rest := stripChars (joinSpace ([pre, post].filter (fun t => !t.isEmpty)))
    (site, rest)
  | none =>
    match splitWs tail with
    | [] => ([], [])
    | p :: ps => (stripSet [','] p, stripChars (joinSpace ps))

/-- One of the `TASK_KEYWORDS_RE` alternatives
`(WORKSHOP|closed|closure|popup|pop-up|job\s*fair|shuttle|event|debrief|keys?)`
matches at the head (IGNORECASE).  Only the match *start* is used by the
caller, so the alternation order and the optional `s` are irrelevant;
`job\s*fair`'s inner `\s*` is deterministic (followed by `f`). -/
def taskKeywordAt (cs : Chars) : Bool :=
  isPrefixCI "workshop".data cs || isPrefixCI "closed".data cs ||
  isPrefixCI "closure".data cs || isPrefixCI "popup".data cs ||
  isPrefixCI "pop-up".data cs ||
  (isPrefixCI "job".data cs &&
    isPrefixCI "fair".data ((cs.drop 3).dropWhile (pyIsSpace ·))) ||
  isPrefixCI "shuttle".data cs || isPrefixCI "event".data cs ||
  isPrefixCI "debrief".data cs || isPrefixCI "key".data cs

/-- `TASK_KEYWORDS_RE.search(rest).start()`: index of the leftmost
keyword occurrence. -/
def keywordSearchIdx : Chars → Option Nat
  | [] => none
  | c :: t =>
    if taskKeywordAt (c :: t) then some 0
    else (keywordSearchIdx t).map (· + 1)

def puncSet : Chars := " ,;-".data

def split_people_task (rest : Chars) : Chars × Chars :=
  if rest.isEmpty then ([], [])
  else
    match findSub "WORKSHOP".data (upperStr rest) with
    | some idx => (stripSet puncSet (rest.take idx), stripSet puncSet (rest.drop idx))
    | none =>
      match keywordSearchIdx rest with
      | some k => (stripSet puncSet (rest.take k), stripSet puncSet (rest.drop k))
      | none => (stripChars rest, [])

/-! ### Time normalizer -/

/-- `re.match(r"(?P<h>\d{1,2})(?::?(?P<m>\d{2}))?(?P<ampm>AM|PM)?$", s)`:
returns the groups `(h, m, ampm)`.  Backtracking order: two hour digits
before one; the minute group with colon, then without, then absent;
meridiem present before absent; then the `$` end check. -/
def normMatchTail (rest : Chars) : Option (Option Chars) :=
  match rest with
  | [] => some none
  | 'A' :: 'M' :: [] => some (some "AM".data)
  | 'P' :: 'M' :: [] => some (some "PM".data)
  | _ => none

def normMatchFrom (h : Nat) (rest : Chars) : Option (Nat × Option Chars × Option Chars) :=
  let mmCands : List (Option Chars × Chars) :=
    (match rest with
     | ':' :: m1 :: m2 :: t => if m1.isDigit && m2.isDigit then [(some [m1, m2], t)] else []
     | _ => []) ++
    (match rest with
     | m1 :: m2 :: t => if m1.isDigit && m2.isDigit then [(some [m1, m2], t)] else []
     | _ => []) ++ [(none, rest)]
  mmCands.findSome? (fun mc =>
    match normMatchTail mc.2 with
    | some ampm => some (h, mc.1, ampm)
    | none => none)

def normMatch (s : Chars) : Option (Nat × Option Chars × Option Chars) :=
  match s with
  | c1 :: c2 :: t =>
    if c1.isDigit && c2.isDigit then
      match normMatchFrom (10 * (c1.toNat - 48) + (c2.toNat - 48)) t with
      | some r => some r
      | none => normMatchFrom (c1.toNat - 48) (c2 :: t)
    else if c1.isDigit then normMatchFrom (c1.toNat - 48) (c2 :: t)
    else none
  | [c1] => if c1.isDigit then normMatchFrom (c1.toNat - 48) [] else none
  | [] => none

/-- `re.match(r"\d{3,4}(AM|PM)?$", s)` (used to pull minutes out of a
compact `830`-style token). -/
def compactMatch (s : Chars) : Bool :=
  let n := (s.takeWhile (·.isDigit)).length
  let tailOk : Chars → Bool := fun r =>
    r.isEmpty || r == "AM".data || r == "PM".data
  (n == 4 && tailOk (s.drop 4)) || (n == 3 && tailOk (s.drop 3))

def normalize_time_token (tok : Chars) (fallback_ampm : Option Chars) : Chars :=
  let s := removeSpaces (upperStr (stripChars tok))
  match normMatch s with
  | none => stripChars tok
  | some (h, mmOpt, ampmGrp) =>
    let ampm : Option Chars := match ampmGrp with
      | some a => some a
      | none => fallback_ampm    -- the fallback is already upper-case
    let mm : Chars := match mmOpt with
      | some mm => mm
      | none =>
        if s.length ≤ 2 then "00".data
        else if compactMatch s then ((s.drop (s.length - 3)).take 2)  -- s[-3:-1]
        else "00".data
    match ampm with
    | some a => natToChars h ++ [':'] ++ mm ++ [' '] ++ a
    | none => natToChars h ++ [':'] ++ mm

/-- `re.search("(AM|PM)", t2, re.IGNORECASE)`, upper-cased group. -/
def findMeridiem : Chars → Option Chars
  | [] => none
  | c :: t =>
    if isPrefixCI "am".data (c :: t) then some "AM".data
    else if isPrefixCI "pm".data (c :: t) then some "PM".data
    else findMeridiem t

def normalize_time_range (t1 t2 : Chars) : Chars :=
  let fb := findMeridiem t2
  normalize_time_token t1 fb ++ " - ".data ++ normalize_time_token t2 fb

/-! ### Row extractor (`parse_rows`, `add_row`) -/

/-- The dict built by `add_row`.  The Python dict stores the date twice
(`"Date"` and `"_date"`, always equal at creation); one field represents
both. -/
structure ShiftRow where
  titleContent : Chars   -- `_title_content`
  dayName : Chars        -- `Day of the Week`
  time : Chars           -- `Time`
  location : Chars       -- `Location`
  people : Chars         -- `People`
  task : Chars           -- `Task`
  date : Date            -- `Date` and `_date`
  deriving DecidableEq, Repr

def weekdayNamesCap : List Chars :=
  ["Monday".data, "Tuesday".data, "Wednesday".data, "Thursday".data,
   "Friday".data, "Saturday".data, "Sunday".data]

/-- `datetime(...).strftime("%A")`. -/
def weekdayNameOf (d : Date) : Chars :=
  weekdayNamesCap.getD d.weekday.toNat []

/-- `add_row(results, d, weekday, t1, t2, location, people, task)`. -/
def add_row (results : List ShiftRow) (d : Date) (weekday : Option Chars)
    (t1 t2 location people task : Chars) : List ShiftRow :=
  let day_name := weekday.getD (weekdayNameOf d)
  let time_str := normalize_time_range t1 t2
  let taskS := stripChars task
  let title_text :=
    if taskS.isEmpty then
      stripChars ((if location.isEmpty then "Shift".data else location) ++ [' '] ++ time_str)
    else taskS
  results ++ [⟨title_text, day_name, time_str, location, stripChars people, taskS, d⟩]

/-- Resolution of a day-header's date (`parse_rows` lines 288-295):
`date(window_start.year, window_start.month, daynum)`, and on `ValueError`
the last day of the month *after* the window's start month (the
`except` block advances `(y, mth)` to the next month before applying the
`+40 days` last-day formula).  `none` models an uncaught exception inside
the `except` block. -/
def resolveHeaderDate (windowStart : Date) (daynum : Nat) : Option Date :=
  match mkDate windowStart.year windowStart.month daynum with
  | some c => some c
  | none =>
    let y := windowStart.year + (if windowStart.month = 12 then 1 else 0)
    let mth := if windowStart.month = 12 then 1 else windowStart.month + 1
    lastDayFormula y mth

/-- The mutable cursor of the line walk. -/
structure Cursor where
  currentDate : Option Date
  currentWeekday : Option Chars
  deriving Repr

/-- One iteration of the `for raw in lines` loop of `parse_rows`: returns
the updated cursor and the rows this line appends (Python appends them to
a shared list; the fold below concatenates). -/
def stepLine (windowStart : Date) (cur : Cursor) (raw : Chars) :
    Option (Cursor × List ShiftRow) :=
  let line := joinSpace (splitWs raw)
  if line.isEmpty then some (cur, [])
  else
    match dayHeaderMatch line with
    | some (daynum, wk, rest0) =>
      let wkC := capitalizeStr wk
      match resolveHeaderDate windowStart daynum with
      | none => none
      | some cd =>
        let rest := stripChars rest0
        match timeRowSearch rest with
        | some (t1, t2, tail) =>
          let lt := first_site_token tail
          let pt := split_people_task lt.2
          some (⟨some cd, some wkC⟩, add_row [] cd (some wkC) t1 t2 lt.1 pt.1 pt.2)
        | none => some (⟨some cd, some wkC⟩, [])
    | none =>
      match timeRowSearch line with
      | some (t1, t2, tail) =>
        match cur.currentDate with
        | some cd =>
          let lt := first_site_token tail
          let pt := split_people_task lt.2
          some (cur, add_row [] cd cur.currentWeekday t1 t2 lt.1 pt.1 pt.2)
        | none => some (cur, [])
      | none => some (cur, [])

def lineLoop (windowStart : Date) : Cursor → List Chars → Option (List ShiftRow)
  | _, [] => some []
  | cur, l :: ls => do
    let s ← stepLine windowStart cur l
    let more ← lineLoop windowStart s.1 ls
    pure (s.2 ++ more)

/-- The name filter: `re.search(rf"\b{re.escape(YOUR_NAME)}\b", people,
re.IGNORECASE)`. -/
def nameMatches (yourName people : Chars) : Bool :=
  (wordBoundSearch true yourName people).isSome

/-- The window filter of `parse_rows`:
`[r for r in rows if window_start <= r["_date"] <= window_end]`. -/
def windowFilter (ws we : Date) (rows : List ShiftRow) : List ShiftRow :=
  rows.filter (fun r => dateLe ws r.date && dateLe r.date we)

/-- The Python dedup key
`(r["_date"].isoformat(), r["Time"], r["Location"], r["People"], r["Task"])`;
`isoformat` is injective on dates, so the date itself serves. -/
def rowKey (r : ShiftRow) : Date × Chars × Chars × Chars × Chars :=
  (r.date, r.time, r.location, r.people, r.task)

/-- The `seen`-set dedup loop at the end of `parse_rows`. -/
def dedupAux (seen : List (Date × Chars × Chars × Chars × Chars)) :
    List ShiftRow → List ShiftRow
  | [] => []
  | r :: rs =>
    if rowKey r ∈ seen then dedupAux seen rs
    else r :: dedupAux (rowKey r :: seen) rs

def dedupRows (rows : List ShiftRow) : List ShiftRow := dedupAux [] rows

/-- `body or subject or ""` (Python falsiness = emptiness for strings). -/
def pickWindowText (subject body : Chars) : Chars :=
  if body.isEmpty then (if subject.isEmpty then [] else subject) else body

/-- `parse_rows(subject, body, filter_by_name)`.  The wall-clock
`datetime.now(TZ)` of the source is passed in as `now` (only its date part
is ever observed).  `none` models an uncaught exception. -/
def parse_rows (subject body : Chars) (filter_by_name : Bool)
    (yourName : Chars) (now : Date) : Option (List ShiftRow) := do
  let w ← parse_window (pickWindowText subject body) now
  let lines := (splitLinesCh body).map stripChars
  let rows ← lineLoop w.1 ⟨none, none⟩ lines
  let rows := if filter_by_name then rows.filter (fun r => nameMatches yourName r.people) else rows
  let rows := windowFilter w.1 w.2 rows
  pure (dedupRows rows)

/-! ### Candidate selector (`looks_like_schedule`, `fetch_latest_email`) -/

/-- `len(DAY_HEADER_LINE.findall(body))`: `DAY_HEADER_LINE` is
`^\s*\d{1,2}\s+(<weekday>)\b` with `re.MULTILINE`, which accepts the same
prefixes as `DAY_HEADER_RE`; each match consumes the digits of exactly one
line that starts (after whitespace) with `\d{1,2}\s+<weekday>`, so the
count equals the number of such lines. -/
def countDayHeaderLines (body : Chars) : Nat :=
  ((splitOnNl body).filter (fun l => (dayHeaderMatch l).isSome)).length

/-- `looks_like_schedule(subject, text)`: the returned score (the metrics
dict is only logged). -/
def looks_like_schedule (subject text : Chars) : Int :=
  let subj := lowerStr subject
  let day_headers : Int := countDayHeaderLines text
  let time_ranges : Int := countTimeRanges text
  let has_window := containsSub (lowerStr text) "schedule for".data ||
    containsSub subj "schedule for".data
  let has_keyword := containsSub subj "schedule".data || containsSub subj "shifts".data
  (if day_headers ≥ 2 then 3 else day_headers) +
    (if time_ranges ≥ 4 then 2 else time_ranges) +
    (if has_window then 2 else 0) +
    (if has_keyword then 1 else 0) -
    (if containsSub subj "debrief".data then 3 else 0)

/-- A fetched message, as the selector sees it: the Gmail payload walking
(`extract_body_text`, `extract_raw_html`, header lookup) is external
I/O glue; its results are the fields here. -/
structure EmailMsg where
  id : Chars
  subject : Chars
  text : Chars
  html : Chars
  deriving Repr

/-- Python string `<` (lexicographic by code point). -/
def charsLt : Chars → Chars → Bool
  | [], [] => false
  | [], _ :: _ => true
  | _ :: _, [] => false
  | a :: as, b :: bs =>
    if a.toNat < b.toNat then true
    else if b.toNat < a.toNat then false
    else charsLt as bs

/-- Stable insertion for `sorted(msgs, key=lambda m: m["id"])`. -/
def insertById (m : EmailMsg) : List EmailMsg → List EmailMsg
  | [] => [m]
  | x :: xs => if charsLt m.id x.id then m :: x :: xs else x :: insertById m xs

def sortById : List EmailMsg → List EmailMsg
  | [] => []
  | m :: ms => insertById m (sortById ms)

/-- The selection loop of `fetch_latest_email`: `best` and `best_score`
accumulate; an empty body text is skipped (`if not text: continue`);
update on strict `score > best_score`. -/
def fetchLoop : Option (Chars × Chars × Chars) → Int → List EmailMsg →
    Option (Chars × Chars × Chars)
  | best, _, [] => best
  | best, bestScore, m :: ms =>
    if m.text.isEmpty then fetchLoop best bestScore ms
    else
      let score := looks_like_schedule m.subject m.text
      if bestScore < score then fetchLoop (some (m.subject, m.text, m.html)) score ms
      else fetchLoop best bestScore ms

/-- `fetch_latest_email`, over the fetched message list.  The source
returns `(None, None, "")` both when the query matches nothing and when no
message yields a best candidate; `none` models that "none found" signal.
`list(reversed(sorted(msgs, key=...)))` is the descending-id order. -/
def fetch_latest_email (msgs : List EmailMsg) : Option (Chars × Chars × Chars) :=
  match msgs with
  | [] => none
  | _ => fetchLoop none (-999) (sortById msgs).reverse

/-- The end-to-end scenario document of the specification (three lines:
window header, a Monday row naming Jeshad, a Tuesday row naming Ana). -/
def c1Body : Chars :=
  ("Schedule for May 5 - 11\n" ++
   "5 Monday 9AM-5PM Tempe Jeshad WORKSHOP setup\n" ++
   "6 Tuesday 10AM-2PM Mesa Ana").data

/-! ### Calendar arithmetic lemmas -/

theorem daysBeforeYear_succ (y : Int) :
    daysBeforeYear (y + 1) = daysBeforeYear y + 365 + (if isLeap y then 1 else 0) := by
  unfold daysBeforeYear isLeap
  split
  · next h =>
    simp only [Bool.and_eq_true, beq_iff_eq, Bool.or_eq_true, bne_iff_ne] at h
    omega
  · next h =>
    simp only [Bool.and_eq_true, beq_iff_eq, Bool.or_eq_true, bne_iff_ne] at h
    push_neg at h
    omega

theorem daysBeforeMonth_add_one (y : Int) (m : Nat) (h1 : 1 ≤ m) (h2 : m ≤ 11) :
    daysBeforeMonth (isLeap y) (m + 1) = daysBeforeMonth (isLeap y) m + daysInMonth y m := by
  interval_cases m <;> cases h : isLeap y <;> simp [daysBeforeMonth, daysInMonth, h]

theorem daysBeforeMonth_bounds (m : Nat) (h1 : 1 ≤ m) (h2 : m ≤ 12) :
    daysBeforeMonth true m ≤ daysBeforeMonth false m + 1 ∧
      daysBeforeMonth false m ≤ daysBeforeMonth true m := by
  interval_cases m <;> simp [daysBeforeMonth]

theorem daysInMonth_pos (y : Int) (m : Nat) (h1 : 1 ≤ m) (h2 : m ≤ 12) :
    1 ≤ daysInMonth y m := by
  interval_cases m <;> simp [daysInMonth] <;> split <;> omega

theorem toOrdinal_succDay (d : Date) (h : d.validYMD) :
    (succDay d).toOrdinal = d.toOrdinal + 1 := by
  obtain ⟨hm1, hm2, hd1, hd2⟩ := h
  unfold succDay
  split
  · simp [Date.toOrdinal]; omega
  · next hlt =>
    split
    · next hmlt =>
      have := daysBeforeMonth_add_one d.year d.month hm1 (by omega)
      simp only [Date.toOrdinal]
      omega
    · next hmge =>
      have hm12 : d.month = 12 := by omega
      rw [hm12] at hd2 hlt
      simp [daysInMonth] at hd2 hlt
      have hday : d.day = 31 := by omega
      have hy := daysBeforeYear_succ d.year
      simp only [Date.toOrdinal, hm12, hday]
      by_cases hl : isLeap d.year <;>
        simp [daysBeforeMonth, hl] at hy ⊢ <;> omega

theorem succDay_validYMD (d : Date) (h : d.validYMD) : (succDay d).validYMD := by
  obtain ⟨hm1, hm2, hd1, hd2⟩ := h
  unfold succDay
  split
  · next hlt =>
    exact ⟨hm1, hm2, show 1 ≤ d.day + 1 by omega,
      show d.day + 1 ≤ daysInMonth d.year d.month by omega⟩
  · split
    · next hmlt =>
      exact ⟨show 1 ≤ d.month + 1 by omega, show d.month + 1 ≤ 12 by omega,
        le_refl 1, daysInMonth_pos d.year (d.month + 1) (by omega) (by omega)⟩
    · exact ⟨by norm_num, by norm_num, by norm_num,
        show 1 ≤ daysInMonth (d.year + 1) 1 by simp [daysInMonth]⟩

theorem toOrdinal_predDay (d : Date) (h : d.validYMD) :
    (predDay d).toOrdinal = d.toOrdinal - 1 := by
  obtain ⟨hm1, hm2, hd1, hd2⟩ := h
  unfold predDay
  split
  · simp [Date.toOrdinal]; omega
  · next hd =>
    have hday : d.day = 1 := by omega
    split
    · next hmlt =>
      have hstep := daysBeforeMonth_add_one d.year (d.month - 1) (by omega) (by omega)
      have hm : d.month - 1 + 1 = d.month := by omega
      rw [hm] at hstep
      simp only [Date.toOrdinal, hday]
      omega
    · next hmge =>
      have hm1' : d.month = 1 := by omega
      have hy : daysBeforeYear (d.year - 1 + 1) =
          daysBeforeYear (d.year - 1) + 365 + (if isLeap (d.year - 1) then 1 else 0) :=
        daysBeforeYear_succ (d.year - 1)
      simp only [Date.toOrdinal, hm1', hday]
      by_cases hl : isLeap (d.year - 1) <;>
        simp [daysBeforeMonth, hl] at hy ⊢ <;> omega

theorem predDay_validYMD (d : Date) (h : d.validYMD) : (predDay d).validYMD := by
  obtain ⟨hm1, hm2, hd1, hd2⟩ := h
  unfold predDay
  split
  · next hgt =>
    exact ⟨hm1, hm2, show 1 ≤ d.day - 1 by omega,
      show d.day - 1 ≤ daysInMonth d.year d.month by omega⟩
  · split
    · next hm =>
      exact ⟨show 1 ≤ d.month - 1 by omega, show d.month - 1 ≤ 12 by omega,
        daysInMonth_pos d.year (d.month - 1) (by omega) (by omega), le_refl _⟩
    · exact ⟨by norm_num, by norm_num, by norm_num,
        show 31 ≤ daysInMonth (d.year - 1) 12 by simp [daysInMonth]⟩

theorem succIter_spec (n : Nat) (d : Date) (h : d.validYMD) :
    (succIter n d).validYMD ∧ (succIter n d).toOrdinal = d.toOrdinal + n := by
  induction n generalizing d with
  | zero => simpa [succIter] using h
  | succ n ih =>
    rw [succIter]
    obtain ⟨hv, ho⟩ := ih (succDay d) (succDay_validYMD d h)
    exact ⟨hv, by rw [ho, toOrdinal_succDay d h]; omega⟩

theorem predIter_spec (n : Nat) (d : Date) (h : d.validYMD) :
    (predIter n d).validYMD ∧ (predIter n d).toOrdinal = d.toOrdinal - n := by
  induction n generalizing d with
  | zero => simpa [predIter] using h
  | succ n ih =>
    rw [predIter]
    obtain ⟨hv, ho⟩ := ih (predDay d) (predDay_validYMD d h)
    exact ⟨hv, by rw [ho, toOrdinal_predDay d h]; omega⟩

theorem daysBeforeYear_add_nat (n : Nat) (y : Int) :
    daysBeforeYear y + 365 * n ≤ daysBeforeYear (y + n) := by
  induction n with
  | zero => simp
  | succ n ih =>
    have h := daysBeforeYear_succ (y + n)
    have : (((n : Nat) + 1 : Nat) : Int) = (n : Int) + 1 := by push_cast; ring
    rw [this]
    have harr : y + ((n : Int) + 1) = (y + n) + 1 := by ring
    rw [harr, h]
    split <;> omega

theorem daysBeforeYear_mono {y y' : Int} (h : y ≤ y') :
    daysBeforeYear y + 365 * (y' - y) ≤ daysBeforeYear y' := by
  have h1 : y' = y + ((y' - y).toNat : Int) := by omega
  have h2 := daysBeforeYear_add_nat (y' - y).toNat y
  rw [← h1] at h2
  omega

theorem daysBeforeYear_step (y : Int) : daysBeforeYear (y - 1) + 365 ≤ daysBeforeYear y := by
  have hs := daysBeforeYear_succ (y - 1)
  have h0 : y - 1 + 1 = y := by ring
  rw [h0] at hs
  split at hs <;> omega

theorem toOrdinal_lower (d : Date) (h : d.validYMD) :
    daysBeforeYear d.year + 1 ≤ d.toOrdinal := by
  obtain ⟨hm1, hm2, hd1, hd2⟩ := h
  simp only [Date.toOrdinal]
  have : 0 ≤ (daysBeforeMonth (isLeap d.year) d.month : Int) := by positivity
  omega

theorem toOrdinal_upper (d : Date) (h : d.validYMD) :
    d.toOrdinal ≤ daysBeforeYear (d.year + 1) := by
  obtain ⟨hm1, hm2, hd1, hd2⟩ := h
  have hy := daysBeforeYear_succ d.year
  have hbnd : daysBeforeMonth (isLeap d.year) d.month + daysInMonth d.year d.month ≤
      365 + (if isLeap d.year then 1 else 0) := by
    interval_cases m : d.month <;> cases hl : isLeap d.year <;>
      simp [daysBeforeMonth, daysInMonth, hl]
  simp only [Date.toOrdinal]
  by_cases hl : isLeap d.year <;> simp [hl] at hy hbnd ⊢ <;> omega

/-- From the ordinal being past the start of year `Y`, the year is at least `Y`. -/
theorem year_ge_of_ord (d : Date) (Y : Int) (h : d.validYMD)
    (ho : daysBeforeYear Y < d.toOrdinal) : Y ≤ d.year := by
  by_contra hc
  push_neg at hc
  have h1 := toOrdinal_upper d h
  have h2 := daysBeforeYear_mono (show d.year + 1 ≤ Y by omega)
  omega

/-- From the ordinal being at most the start of year `Y+1`, the year is at most `Y`. -/
theorem year_le_of_ord (d : Date) (Y : Int) (h : d.validYMD)
    (ho : d.toOrdinal ≤ daysBeforeYear (Y + 1)) : d.year ≤ Y := by
  by_contra hc
  push_neg at hc
  have h1 := toOrdinal_lower d h
  have h2 := daysBeforeYear_mono (show Y + 1 ≤ d.year by omega)
  omega

theorem addDays_some (d : Date) (n : Nat) (h : d.validYMD) (hy1 : 1 ≤ d.year)
    (hy2 : d.year ≤ 9998) (hn : n ≤ 365) :
    addDays d n = some (succIter n d) ∧ (succIter n d).validYMD ∧
      (succIter n d).toOrdinal = d.toOrdinal + n := by
  obtain ⟨hv, ho⟩ := succIter_spec n d h
  have hup : d.toOrdinal ≤ daysBeforeYear (d.year + 1) := toOrdinal_upper d h
  have hm1 : daysBeforeYear (d.year + 1) ≤ daysBeforeYear 9999 :=
    le_trans (by omega) (daysBeforeYear_mono (show d.year + 1 ≤ 9999 by omega))
  have hm2 : daysBeforeYear 9999 + 365 ≤ daysBeforeYear (9999 + 1) :=
    le_trans (by omega) (daysBeforeYear_mono (show (9999 : Int) ≤ 9999 + 1 by omega))
  have hyle : (succIter n d).year ≤ 9999 :=
    year_le_of_ord _ 9999 hv (by omega)
  have hyge : 1 ≤ (succIter n d).year := by
    refine le_trans hy1 (year_ge_of_ord _ d.year hv ?_)
    have := toOrdinal_lower d h
    omega
  exact ⟨by simp [addDays, hyle, hyge], hv, ho⟩

theorem subDays_some (d : Date) (n : Nat) (h : d.validYMD) (hy1 : 2 ≤ d.year)
    (hy2 : d.year ≤ 9999) (hn : n ≤ 365) :
    subDays d n = some (predIter n d) ∧ (predIter n d).validYMD ∧
      (predIter n d).toOrdinal = d.toOrdinal - n := by
  obtain ⟨hv, ho⟩ := predIter_spec n d h
  have hlo : daysBeforeYear d.year + 1 ≤ d.toOrdinal := toOrdinal_lower d h
  have hstep : daysBeforeYear (d.year - 1) + 365 ≤ daysBeforeYear d.year := by
    have hs := daysBeforeYear_succ (d.year - 1)
    have h0 : d.year - 1 + 1 = d.year := by ring
    rw [h0] at hs
    split at hs <;> omega
  have hm1 : daysBeforeYear 1 ≤ daysBeforeYear (d.year - 1) := by
    have := daysBeforeYear_mono (show (1 : Int) ≤ d.year - 1 by omega)
    omega
  have hdby1 : daysBeforeYear 1 = 0 := by unfold daysBeforeYear; decide
  have hyge : 1 ≤ (predIter n d).year :=
    year_ge_of_ord _ 1 hv (by omega)
  have hup : d.toOrdinal ≤ daysBeforeYear (d.year + 1) := toOrdinal_upper d h
  have hm2 : daysBeforeYear (d.year + 1) ≤ daysBeforeYear (9999 + 1) :=
    le_trans (by omega) (daysBeforeYear_mono (show d.year + 1 ≤ 9999 + 1 by omega))
  have hyle : (predIter n d).year ≤ 9999 :=
    year_le_of_ord _ 9999 hv (by omega)
  exact ⟨by simp [subDays, hyle, hyge], hv, ho⟩

theorem mkDate_eq (y : Int) (m d : Nat) (hm1 : 1 ≤ m) (hm2 : m ≤ 12) (hd1 : 1 ≤ d)
    (hd2 : d ≤ daysInMonth y m) (hy1 : 1 ≤ y) (hy2 : y ≤ 9999) :
    mkDate y m d = some ⟨y, m, d⟩ := by
  simp [mkDate, Date.pyValid, Date.validYMD, hm1, hm2, hd1, hd2, hy1, hy2]

/-- One-year ordinal span bound, used for the year-rollover analysis:
the same month/day one year earlier is at most 366 days back. -/
theorem ord_span_year (y : Int) (m d : Nat)
    (h1 : (Date.mk y m d).validYMD) (h2 : (Date.mk (y - 1) m d).validYMD) :
    (Date.mk y m d).toOrdinal - (Date.mk (y - 1) m d).toOrdinal ≤ 366 := by
  obtain ⟨hm1, hm2, _, _⟩ := h1
  have hstep : daysBeforeYear y = daysBeforeYear (y - 1) + 365 +
      (if isLeap (y - 1) then 1 else 0) := by
    have := daysBeforeYear_succ (y - 1)
    simpa using this
  have hb := daysBeforeMonth_bounds m hm1 hm2
  simp only [Date.toOrdinal] at *
  by_cases hl1 : isLeap (y - 1) <;> by_cases hl2 : isLeap y <;>
    simp [hl1, hl2] at hstep hb ⊢ <;> omega


theorem daysInMonth_le_31 (y : Int) (m : Nat) : daysInMonth y m ≤ 31 := by
  unfold daysInMonth
  split <;> first | omega | (split <;> omega)

theorem daysInMonth_ge_28 (y : Int) (m : Nat) (h1 : 1 ≤ m) (h2 : m ≤ 12) :
    28 ≤ daysInMonth y m := by
  interval_cases m <;> simp [daysInMonth] <;> split <;> omega

theorem succIter_add (a b : Nat) (d : Date) :
    succIter (a + b) d = succIter b (succIter a d) := by
  induction a generalizing d with
  | zero => simp [succIter]
  | succ a ih =>
    have h : a + 1 + b = (a + b) + 1 := by omega
    rw [h, succIter, succIter, ih]

theorem succIter_within (k : Nat) (y : Int) (m : Nat) : ∀ dy : Nat, 1 ≤ dy →
    dy + k ≤ daysInMonth y m → succIter k ⟨y, m, dy⟩ = ⟨y, m, dy + k⟩ := by
  induction k with
  | zero => intro dy _ _; simp [succIter]
  | succ k ih =>
    intro dy h1 h2
    rw [succIter]
    have hs : succDay ⟨y, m, dy⟩ = ⟨y, m, dy + 1⟩ := by
      unfold succDay
      rw [if_pos]
      show dy < daysInMonth y m
      omega
    rw [hs, ih (dy + 1) (by omega) (by omega)]
    congr 1
    omega

theorem succDay_month_end (y : Int) (m : Nat) (h1 : 1 ≤ m) (h2 : m ≤ 11) :
    succDay ⟨y, m, daysInMonth y m⟩ = ⟨y, m + 1, 1⟩ := by
  unfold succDay
  rw [if_neg (by simp), if_pos]
  show m < 12
  omega

theorem succDay_year_end (y : Int) :
    succDay ⟨y, 12, daysInMonth y 12⟩ = ⟨y + 1, 1, 1⟩ := by
  unfold succDay
  rw [if_neg (by simp), if_neg (by simp)]

/-- Rolling from the first of a month over a full month. -/
theorem succIter_month_roll (y : Int) (m : Nat) (h1 : 1 ≤ m) (h2 : m ≤ 11) :
    succIter (daysInMonth y m) ⟨y, m, 1⟩ = ⟨y, m + 1, 1⟩ := by
  have hpos := daysInMonth_pos y m h1 (by omega)
  have hsplit : daysInMonth y m = (daysInMonth y m - 1) + 1 := by omega
  rw [hsplit, succIter_add, succIter_within (daysInMonth y m - 1) y m 1 (by omega) (by omega)]
  have h1d : 1 + (daysInMonth y m - 1) = daysInMonth y m := by omega
  rw [h1d, succIter, succIter, succDay_month_end y m h1 h2]

theorem succIter_year_roll (y : Int) :
    succIter (daysInMonth y 12) ⟨y, 12, 1⟩ = ⟨y + 1, 1, 1⟩ := by
  have hpos := daysInMonth_pos y 12 (by omega) (by omega)
  have hsplit : daysInMonth y 12 = (daysInMonth y 12 - 1) + 1 := by omega
  rw [hsplit, succIter_add, succIter_within (daysInMonth y 12 - 1) y 12 1 (by omega) (by omega)]
  have h1d : 1 + (daysInMonth y 12 - 1) = daysInMonth y 12 := by omega
  rw [h1d, succIter, succIter, succDay_year_end y]

/-- The `(date(y, m, 1) + timedelta(days=40)).replace(day=1) -
timedelta(days=1)` dance indeed lands on the last day of month `m`. -/
theorem lastDayFormula_eq (y : Int) (m : Nat) (hm1 : 1 ≤ m) (hm2 : m ≤ 12)
    (hy1 : 1 ≤ y) (hy2 : y ≤ 9998) :
    lastDayFormula y m = some ⟨y, m, daysInMonth y m⟩ := by
  have hdim1 := daysInMonth_pos y m hm1 hm2
  have hdimle := daysInMonth_le_31 y m
  have hdimge := daysInMonth_ge_28 y m hm1 hm2
  have ha : mkDate y m 1 = some ⟨y, m, 1⟩ :=
    mkDate_eq y m 1 hm1 hm2 (by omega) (by omega) hy1 (by omega)
  by_cases hm12 : m = 12
  · subst hm12
    have hd12 : daysInMonth y 12 = 31 := by simp [daysInMonth]
    have haddDays : addDays ⟨y, 12, 1⟩ 40 = some ⟨y + 1, 1, 10⟩ := by
      have e1 : succIter 40 (⟨y, 12, 1⟩ : Date) =
          succIter 9 (succIter 31 ⟨y, 12, 1⟩) := by
        rw [← succIter_add]
      have e2 : succIter 31 ⟨y, 12, 1⟩ = ⟨y + 1, 1, 1⟩ := by
        have h := succIter_year_roll y
        rwa [hd12] at h
      have e3 : succIter 9 (⟨y + 1, 1, 1⟩ : Date) = ⟨y + 1, 1, 10⟩ := by
        have h := succIter_within 9 (y + 1) 1 1 (by omega) (by simp [daysInMonth])
        simpa using h
      have hb : succIter 40 (⟨y, 12, 1⟩ : Date) = ⟨y + 1, 1, 10⟩ :=
        e1.trans ((congrArg (succIter 9) e2).trans e3)
      simp only [addDays, hb]
      rw [if_pos]
      constructor <;> omega
    have hc : mkDate (y + 1) 1 1 = some ⟨y + 1, 1, 1⟩ :=
      mkDate_eq (y + 1) 1 1 (by omega) (by omega) (by omega) (by simp [daysInMonth])
        (by omega) (by omega)
    have hpred : predDay ⟨y + 1, 1, 1⟩ = ⟨y, 12, 31⟩ := by
      have h : predDay ⟨y + 1, 1, 1⟩ = ⟨y + 1 - 1, 12, 31⟩ := rfl
      rw [h]
      simp [Date.mk.injEq]
    have hsub : subDays ⟨y + 1, 1, 1⟩ 1 = some ⟨y, 12, 31⟩ := by
      simp only [subDays, predIter, hpred]
      rw [if_pos]
      constructor <;> omega
    simp only [lastDayFormula, ha, Option.bind_eq_bind, Option.some_bind, haddDays, hc, hsub]
    rw [hd12]
  · have hm11 : m ≤ 11 := by omega
    have hdnext := daysInMonth_ge_28 y (m + 1) (by omega) (by omega)
    have haddDays : addDays ⟨y, m, 1⟩ 40 = some ⟨y, m + 1, 1 + (40 - daysInMonth y m)⟩ := by
      have e1 : succIter 40 (⟨y, m, 1⟩ : Date) =
          succIter (40 - daysInMonth y m) (succIter (daysInMonth y m) ⟨y, m, 1⟩) := by
        conv_lhs => rw [show (40 : Nat) = daysInMonth y m + (40 - daysInMonth y m) from by omega]
        rw [succIter_add]
      have e2 := succIter_month_roll y m hm1 hm11
      have e3 : succIter (40 - daysInMonth y m) (⟨y, m + 1, 1⟩ : Date) =
          ⟨y, m + 1, 1 + (40 - daysInMonth y m)⟩ :=
        succIter_within (40 - daysInMonth y m) y (m + 1) 1 (by omega) (by omega)
      have hb : succIter 40 (⟨y, m, 1⟩ : Date) = ⟨y, m + 1, 1 + (40 - daysInMonth y m)⟩ :=
        e1.trans ((congrArg (succIter (40 - daysInMonth y m)) e2).trans e3)
      simp only [addDays, hb]
      rw [if_pos]
      constructor <;> omega
    have hc : mkDate y (m + 1) 1 = some ⟨y, m + 1, 1⟩ :=
      mkDate_eq y (m + 1) 1 (by omega) (by omega) (by omega) (by omega) hy1 (by omega)
    have hpred : predDay ⟨y, m + 1, 1⟩ = ⟨y, m, daysInMonth y m⟩ := by
      unfold predDay
      rw [if_neg (by show ¬1 < 1; omega), if_pos (by show 1 < m + 1; omega)]
      simp only [Date.mk.injEq, Nat.add_sub_cancel]
    have hsub : subDays ⟨y, m + 1, 1⟩ 1 = some ⟨y, m, daysInMonth y m⟩ := by
      simp only [subDays, predIter, hpred]
      rw [if_pos]
      constructor <;> omega
    simp only [lastDayFormula, ha, Option.bind_eq_bind, Option.some_bind, haddDays, hc, hsub]

/-! ### Dedup lemmas -/

/-- The `seen` set after the dedup loop has processed `l`. -/
def seenAfter (seen : List (Date × Chars × Chars × Chars × Chars)) :
    List ShiftRow → List (Date × Chars × Chars × Chars × Chars)
  | [] => seen
  | r :: rs =>
    if rowKey r ∈ seen then seenAfter seen rs
    else seenAfter (rowKey r :: seen) rs

theorem dedupAux_append (seen : List (Date × Chars × Chars × Chars × Chars))
    (l1 l2 : List ShiftRow) :
    dedupAux seen (l1 ++ l2) = dedupAux seen l1 ++ dedupAux (seenAfter seen l1) l2 := by
  induction l1 generalizing seen with
  | nil => simp [dedupAux, seenAfter]
  | cons r rs ih =>
    by_cases h : rowKey r ∈ seen <;> simp [dedupAux, seenAfter, h, ih]

theorem mem_seenAfter (seen : List (Date × Chars × Chars × Chars × Chars))
    (l : List ShiftRow) (k : Date × Chars × Chars × Chars × Chars) (h : k ∈ seen) :
    k ∈ seenAfter seen l := by
  induction l generalizing seen with
  | nil => exact h
  | cons r rs ih =>
    by_cases hk : rowKey r ∈ seen <;> simp [seenAfter, hk]
    · exact ih seen h
    · exact ih _ (by simp [h])

theorem rowKey_mem_seenAfter (seen : List (Date × Chars × Chars × Chars × Chars))
    (l : List ShiftRow) (r : ShiftRow) (h : r ∈ l) : rowKey r ∈ seenAfter seen l := by
  induction l generalizing seen with
  | nil => cases h
  | cons x xs ih =>
    rcases List.mem_cons.mp h with rfl | hm
    · by_cases hk : rowKey r ∈ seen <;> simp [seenAfter, hk]
      · exact mem_seenAfter seen xs _ hk
      · exact mem_seenAfter _ xs _ (by simp)
    · by_cases hk : rowKey x ∈ seen <;> simp [seenAfter, hk] <;> exact ih _ hm

theorem dedupAux_nil_of_seen (seen : List (Date × Chars × Chars × Chars × Chars))
    (l : List ShiftRow) (h : ∀ r ∈ l, rowKey r ∈ seen) : dedupAux seen l = [] := by
  induction l with
  | nil => rfl
  | cons r rs ih =>
    have hr : rowKey r ∈ seen := h r (by simp)
    simp [dedupAux, hr]
    exact ih (fun x hx => h x (by simp [hx]))

theorem dedupAux_idem (seen : List (Date × Chars × Chars × Chars × Chars))
    (l : List ShiftRow) : dedupAux seen (dedupAux seen l) = dedupAux seen l := by
  induction l generalizing seen with
  | nil => rfl
  | cons r rs ih =>
    by_cases h : rowKey r ∈ seen
    · simp [dedupAux, h, ih]
    · simp only [dedupAux, if_neg h]
      rw [ih]
  -- the remaining work is done inside `ih` applications; see below

theorem dedupAux_sublist (seen : List (Date × Chars × Chars × Chars × Chars))
    (l : List ShiftRow) : (dedupAux seen l).Sublist l := by
  induction l generalizing seen with
  | nil => simp [dedupAux]
  | cons r rs ih =>
    by_cases h : rowKey r ∈ seen
    · simp only [dedupAux, if_pos h]
      exact (ih seen).cons r
    · simp only [dedupAux, if_neg h]
      exact (ih _).cons₂ r

theorem dedupAux_keys_fresh (seen : List (Date × Chars × Chars × Chars × Chars))
    (l : List ShiftRow) :
    (dedupAux seen l).Pairwise (fun a b => rowKey a ≠ rowKey b) ∧
      ∀ x ∈ dedupAux seen l, rowKey x ∉ seen := by
  induction l generalizing seen with
  | nil => simp [dedupAux]
  | cons r rs ih =>
    by_cases h : rowKey r ∈ seen
    · simpa [dedupAux, h] using ih seen
    · obtain ⟨hp, hf⟩ := ih (rowKey r :: seen)
      refine ⟨?_, ?_⟩
      · simp only [dedupAux, if_neg h, List.pairwise_cons]
        exact ⟨fun b hb => fun he => (hf b hb) (by simp [he]), hp⟩
      · intro x hx
        simp only [dedupAux, if_neg h, List.mem_cons] at hx
        rcases hx with rfl | hx
        · exact h
        · exact fun hc => (hf x hx) (by simp [hc])

/-! ### Line-walk lemmas -/

theorem dayHeaderMatch_nil : dayHeaderMatch [] = none := rfl

theorem timeRowSearch_nil : timeRowSearch [] = none := rfl

theorem stepLine_header_row (ws : Date) (cur : Cursor) (raw : Chars)
    (daynum : Nat) (wk rest0 : Chars) (cd : Date) (t1 t2 tail : Chars)
    (hd : dayHeaderMatch (joinSpace (splitWs raw)) = some (daynum, wk, rest0))
    (hr : resolveHeaderDate ws daynum = some cd)
    (hts : timeRowSearch (stripChars rest0) = some (t1, t2, tail)) :
    stepLine ws cur raw = some (⟨some cd, some (capitalizeStr wk)⟩,
      add_row [] cd (some (capitalizeStr wk)) t1 t2 (first_site_token tail).1
        (split_people_task (first_site_token tail).2).1
        (split_people_task (first_site_token tail).2).2) := by
  by_cases hline : (joinSpace (splitWs raw)).isEmpty
  · rw [List.isEmpty_iff] at hline
    rw [hline, dayHeaderMatch_nil] at hd
    cases hd
  · simp only [stepLine]
    rw [if_neg hline]
    simp only [hd, hr, hts]

theorem stepLine_header_noRow (ws : Date) (cur : Cursor) (raw : Chars)
    (daynum : Nat) (wk rest0 : Chars) (cd : Date)
    (hd : dayHeaderMatch (joinSpace (splitWs raw)) = some (daynum, wk, rest0))
    (hr : resolveHeaderDate ws daynum = some cd)
    (hts : timeRowSearch (stripChars rest0) = none) :
    stepLine ws cur raw = some (⟨some cd, some (capitalizeStr wk)⟩, []) := by
  by_cases hline : (joinSpace (splitWs raw)).isEmpty
  · rw [List.isEmpty_iff] at hline
    rw [hline, dayHeaderMatch_nil] at hd
    cases hd
  · simp only [stepLine]
    rw [if_neg hline]
    simp only [hd, hr, hts]

theorem stepLine_header_none (ws : Date) (cur : Cursor) (raw : Chars)
    (daynum : Nat) (wk rest0 : Chars)
    (hd : dayHeaderMatch (joinSpace (splitWs raw)) = some (daynum, wk, rest0))
    (hr : resolveHeaderDate ws daynum = none) :
    stepLine ws cur raw = none := by
  by_cases hline : (joinSpace (splitWs raw)).isEmpty
  · rw [List.isEmpty_iff] at hline
    rw [hline, dayHeaderMatch_nil] at hd
    cases hd
  · simp only [stepLine]
    rw [if_neg hline]
    simp only [hd, hr]

theorem stepLine_plain_row (ws : Date) (cur : Cursor) (raw : Chars)
    (t1 t2 tail : Chars) (cd : Date)
    (hd : dayHeaderMatch (joinSpace (splitWs raw)) = none)
    (hts : timeRowSearch (joinSpace (splitWs raw)) = some (t1, t2, tail))
    (hcur : cur.currentDate = some cd) :
    stepLine ws cur raw = some (cur,
      add_row [] cd cur.currentWeekday t1 t2 (first_site_token tail).1
        (split_people_task (first_site_token tail).2).1
        (split_people_task (first_site_token tail).2).2) := by
  by_cases hline : (joinSpace (splitWs raw)).isEmpty
  · rw [List.isEmpty_iff] at hline
    rw [hline, timeRowSearch_nil] at hts
    cases hts
  · simp only [stepLine]
    rw [if_neg hline]
    simp only [hd, hts, hcur]

theorem stepLine_plain_skip (ws : Date) (cur : Cursor) (raw : Chars)
    (hd : dayHeaderMatch (joinSpace (splitWs raw)) = none)
    (h : timeRowSearch (joinSpace (splitWs raw)) = none ∨ cur.currentDate = none) :
    stepLine ws cur raw = some (cur, []) := by
  by_cases hline : (joinSpace (splitWs raw)).isEmpty
  · simp only [stepLine]
    rw [if_pos hline]
  · simp only [stepLine]
    rw [if_neg hline]
    rcases h with hts | hcur
    · simp only [hd, hts]
    · cases hts : timeRowSearch (joinSpace (splitWs raw)) with
      | none => simp only [hd, hts]
      | some v =>
        obtain ⟨t1, t2, tail⟩ := v
        simp only [hd, hts, hcur]

/-- Every row `add_row` emits under a given date carries that date. -/
theorem add_row_date (d : Date) (wk : Option Chars) (t1 t2 loc p t : Chars)
    (r : ShiftRow) (h : r ∈ add_row [] d wk t1 t2 loc p t) : r.date = d := by
  simp only [add_row, List.nil_append, List.mem_singleton] at h
  rw [h]

/-! ### Candidate-selector lemmas -/

theorem looks_like_schedule_lb (subject text : Chars) :
    -3 ≤ looks_like_schedule subject text := by
  simp only [looks_like_schedule]
  split_ifs <;> omega

theorem fetchLoop_isSome (l : List EmailMsg) (b : Chars × Chars × Chars) (s : Int) :
    (fetchLoop (some b) s l).isSome := by
  induction l generalizing b s with
  | nil => simp [fetchLoop]
  | cons m ms ih =>
    simp only [fetchLoop]
    split_ifs <;> exact ih _ _

theorem fetchLoop_none_iff (l : List EmailMsg) (s : Int) (hs : s ≤ -4) :
    (fetchLoop none s l = none ↔ ∀ m ∈ l, m.text = []) := by
  induction l generalizing s with
  | nil => simp [fetchLoop]
  | cons m ms ih =>
    simp only [fetchLoop]
    by_cases he : m.text.isEmpty
    · have htxt : m.text = [] := by
        cases hmt : m.text with
        | nil => rfl
        | cons c t => rw [hmt] at he; simp at he
      rw [if_pos he, ih s hs]
      simp [htxt]
    · have htxt : m.text ≠ [] := by
        intro hc
        rw [hc] at he
        simp at he
      have hsc := looks_like_schedule_lb m.subject m.text
      have hlt : s < looks_like_schedule m.subject m.text := by omega
      rw [if_neg he, if_pos hlt]
      constructor
      · intro hc
        have := fetchLoop_isSome ms (m.subject, m.text, m.html)
          (looks_like_schedule m.subject m.text)
        rw [hc] at this
        simp at this
      · intro hall
        exact absurd (hall m (by simp)) htxt

theorem mem_insertById (m x : EmailMsg) (l : List EmailMsg) :
    x ∈ insertById m l ↔ x = m ∨ x ∈ l := by
  induction l with
  | nil => simp [insertById]
  | cons y ys ih =>
    simp only [insertById]
    split_ifs <;> simp [ih] <;> tauto

theorem mem_sortById (x : EmailMsg) (l : List EmailMsg) :
    x ∈ sortById l ↔ x ∈ l := by
  induction l with
  | nil => simp [sortById]
  | cons y ys ih => simp [sortById, mem_insertById, ih]

/-! ### Claims -/

/-- C8: deduplication by the natural key `(date, timeRange, location,
people, task)` preserves first-seen order (the result is a subsequence of
the input with pairwise distinct keys) and is idempotent: deduplicating an
already-deduplicated list is a no-op, running the extractor twice on
identical input and deduplicating the concatenation equals deduplicating
one copy, and `parse_rows` output is already deduplicated. -/
theorem claim_C8 :
    (∀ rows : List ShiftRow, dedupRows (rows ++ rows) = dedupRows rows) ∧
    (∀ rows : List ShiftRow, dedupRows (dedupRows rows) = dedupRows rows) ∧
    (∀ rows : List ShiftRow, (dedupRows rows).Sublist rows) ∧
    (∀ rows : List ShiftRow, (dedupRows rows).Pairwise (fun a b => rowKey a ≠ rowKey b)) ∧
    (∀ subject body fb name now rows,
      parse_rows subject body fb name now = some rows → dedupRows rows = rows) := by
  refine ⟨?_, ?_, ?_, ?_, ?_⟩
  · intro rows
    unfold dedupRows
    rw [dedupAux_append, dedupAux_nil_of_seen _ _
      (fun r hr => rowKey_mem_seenAfter [] rows r hr), List.append_nil]
  · intro rows
    exact dedupAux_idem [] rows
  · intro rows
    exact dedupAux_sublist [] rows
  · intro rows
    exact (dedupAux_keys_fresh [] rows).1
  · intro subject body fb name now rows h
    cases hw : parse_window (pickWindowText subject body) now with
    | none => simp [parse_rows, hw] at h
    | some w =>
      cases hl : lineLoop w.1 ⟨none, none⟩ ((splitLinesCh body).map stripChars) with
      | none => simp [parse_rows, hw, hl] at h
      | some rows0 =>
        simp only [parse_rows, hw, hl, Option.bind_eq_bind, Option.some_bind,
          Option.pure_def, Option.some_inj] at h
        rw [← h]
        exact dedupAux_idem [] _

/-- C8 witness: the hypothesis-bearing conjunct applied at a concrete
parse. -/
theorem claim_C8_witness : dedupRows ([] : List ShiftRow) = [] :=
  claim_C8.2.2.2.2 [] "x".data false [] ⟨2024, 5, 8⟩ [] (by decide)

/-- C9 counterexample: a fetched message whose body text is empty is
skipped by the selection loop (`if not text: continue` in
`fetch_latest_email`), so with exactly one message, whose body is empty,
the selector returns the "none found" signal even though a candidate
message exists — refuting "it never returns 'none found' when at least one
message was fetched". -/
theorem claim_C9_counterexample :
    fetch_latest_email [⟨"1".data, "subject".data, [], []⟩] = none ∧
    ([⟨"1".data, "subject".data, [], []⟩] : List EmailMsg).length = 1 := by
  exact ⟨rfl, rfl⟩

/-- C9 amended: a fetched message with empty body text is skipped (not
scored, not eligible); the selector returns the "none found" signal
exactly when every fetched message has empty body text — which includes
both the no-messages case and the all-bodies-empty case. -/
theorem claim_C9 (msgs : List EmailMsg) :
    fetch_latest_email msgs = none ↔ ∀ m ∈ msgs, m.text = [] := by
  cases msgs with
  | nil => simp [fetch_latest_email]
  | cons m ms =>
    unfold fetch_latest_email
    rw [fetchLoop_none_iff _ (-999) (by norm_num)]
    constructor
    · intro h x hx
      exact h x (by simpa [mem_sortById] using hx)
    · intro h x hx
      exact h x (by simpa [mem_sortById] using hx)

/-- C4: meridiem inheritance in `normalize_time_range` is
rightward-to-leftward only.  Concretely `("9", "10AM")` normalizes to
`"9:00 AM - 10:00 AM"`; in general, when the second token carries an
`AM`/`PM` and the first token's own match has no meridiem group, the first
token is rendered with the second's meridiem; and when the second token
carries no `AM`/`PM`, its rendered form has no meridiem, whatever the
first token carries. -/
theorem claim_C4 :
    normalize_time_range "9".data "10AM".data = "9:00 AM - 10:00 AM".data ∧
    (∀ t1 t2 ap h mmo, findMeridiem t2 = some ap →
        normMatch (removeSpaces (upperStr (stripChars t1))) = some (h, mmo, none) →
        ∃ mm, normalize_time_range t1 t2 =
          (natToChars h ++ [':'] ++ mm ++ [' '] ++ ap) ++ " - ".data ++
            normalize_time_token t2 (some ap)) ∧
    (∀ t1 t2 h mmo, findMeridiem t2 = none →
        normMatch (removeSpaces (upperStr (stripChars t2))) = some (h, mmo, none) →
        ∃ mm, normalize_time_range t1 t2 =
          normalize_time_token t1 none ++ " - ".data ++
            (natToChars h ++ [':'] ++ mm)) := by
  refine ⟨by rfl, ?_, ?_⟩
  · intro t1 t2 ap h mmo hf hm
    simp only [normalize_time_range, normalize_time_token, hf, hm]
    exact ⟨_, rfl⟩
  · intro t1 t2 h mmo hf hm
    simp only [normalize_time_range, normalize_time_token, hf, hm]
    exact ⟨_, rfl⟩

/-- C4 witness: the inheritance conjunct applied at the concrete pair
`("9", "10AM")`. -/
theorem claim_C4_witness :
    ∃ mm, normalize_time_range "9".data "10AM".data =
      (natToChars 9 ++ [':'] ++ mm ++ [' '] ++ "AM".data) ++ " - ".data ++
        normalize_time_token "10AM".data (some "AM".data) :=
  claim_C4.2.1 "9".data "10AM".data "AM".data 9 none (by decide) (by decide)

/-- C3 counterexample: for a window starting in April 2024 (a 30-day
month), a `31 <Weekday> ...` day header resolves to May 31 — the last day
of the month *after* the window's start month — not to April 30, the last
valid day of the start month that the claim's clamp rule names. -/
theorem claim_C3_counterexample :
    resolveHeaderDate ⟨2024, 4, 1⟩ 31 = some ⟨2024, 5, 31⟩ ∧
    some (⟨2024, 5, 31⟩ : Date) ≠ some (⟨2024, 4, 30⟩ : Date) := by
  exact ⟨by decide, by decide⟩

/-- C3 amended: for every day-header line whose day number is invalid for
the window's start month, the row extractor does not raise: it resolves
the header's date to the *last day of the month following the window's
start month* (the `except` block advances to the next month before
applying the last-day formula), the cursor is set to that date, every row
emitted on the header line itself carries it, and every row emitted by a
following plain time-range line carries the cursor's date. -/
theorem claim_C3 :
    (∀ (ws : Date) (daynum : Nat), ws.pyValid → ws.year ≤ 9997 →
      mkDate ws.year ws.month daynum = none →
      resolveHeaderDate ws daynum =
        some ⟨ws.year + (if ws.month = 12 then 1 else 0),
              if ws.month = 12 then 1 else ws.month + 1,
              daysInMonth (ws.year + (if ws.month = 12 then 1 else 0))
                (if ws.month = 12 then 1 else ws.month + 1)⟩) ∧
    (∀ ws cur raw daynum wk rest0 cd,
      dayHeaderMatch (joinSpace (splitWs raw)) = some (daynum, wk, rest0) →
      resolveHeaderDate ws daynum = some cd →
      ∃ rows, stepLine ws cur raw = some (⟨some cd, some (capitalizeStr wk)⟩, rows) ∧
        ∀ r ∈ rows, r.date = cd) ∧
    (∀ ws cur raw st2 rows,
      dayHeaderMatch (joinSpace (splitWs raw)) = none →
      stepLine ws cur raw = some (st2, rows) →
      ∀ r ∈ rows, cur.currentDate = some r.date) := by
  refine ⟨?_, ?_, ?_⟩
  · intro ws daynum hv hy hmk
    obtain ⟨⟨hm1, hm2, _, _⟩, hy1, _⟩ := hv
    simp only [resolveHeaderDate, hmk]
    by_cases h12 : ws.month = 12
    · simp only [h12, if_pos rfl]
      exact lastDayFormula_eq (ws.year + 1) 1 (by omega) (by omega) (by omega) (by omega)
    · simp only [if_neg h12]
      have := lastDayFormula_eq ws.year (ws.month + 1) (by omega) (by omega) (by omega)
        (by omega)
      simpa using this
  · intro ws cur raw daynum wk rest0 cd hd hr
    cases hts : timeRowSearch (stripChars rest0) with
    | none =>
      exact ⟨[], stepLine_header_noRow ws cur raw daynum wk rest0 cd hd hr hts, by simp⟩
    | some v =>
      obtain ⟨t1, t2, tail⟩ := v
      refine ⟨_, stepLine_header_row ws cur raw daynum wk rest0 cd t1 t2 tail hd hr hts, ?_⟩
      intro r hrr
      exact add_row_date _ _ _ _ _ _ _ _ hrr
  · intro ws cur raw st2 rows hd hstep r hr
    cases hts : timeRowSearch (joinSpace (splitWs raw)) with
    | none =>
      rw [stepLine_plain_skip ws cur raw hd (Or.inl hts)] at hstep
      simp only [Option.some_inj, Prod.mk.injEq] at hstep
      rw [← hstep.2] at hr
      cases hr
    | some v =>
      obtain ⟨t1, t2, tail⟩ := v
      cases hcur : cur.currentDate with
      | none =>
        rw [stepLine_plain_skip ws cur raw hd (Or.inr hcur)] at hstep
        simp only [Option.some_inj, Prod.mk.injEq] at hstep
        rw [← hstep.2] at hr
        cases hr
      | some cd =>
        rw [stepLine_plain_row ws cur raw t1 t2 tail cd hd hts hcur] at hstep
        simp only [Option.some_inj, Prod.mk.injEq] at hstep
        rw [← hstep.2] at hr
        rw [add_row_date _ _ _ _ _ _ _ _ hr]

/-- C3 witness: the resolution conjunct applied at the concrete window
start April 2024 with day number 31. -/
theorem claim_C3_witness :
    resolveHeaderDate ⟨2024, 4, 1⟩ 31 =
      some ⟨2024 + (if (4 : Nat) = 12 then 1 else 0),
            if (4 : Nat) = 12 then 1 else 4 + 1,
            daysInMonth (2024 + (if (4 : Nat) = 12 then 1 else 0))
              (if (4 : Nat) = 12 then 1 else 4 + 1)⟩ :=
  claim_C3.1 ⟨2024, 4, 1⟩ 31 (by decide) (by decide) (by decide)

theorem validYMD_mk (y : Int) (m d : Nat) (h1 : 1 ≤ m) (h2 : m ≤ 12) (h3 : 1 ≤ d)
    (h4 : d ≤ daysInMonth y m) : (Date.mk y m d).validYMD :=
  ⟨h1, h2, h3, h4⟩

theorem pyValid_mk (y : Int) (m d : Nat) (h1 : 1 ≤ m) (h2 : m ≤ 12) (h3 : 1 ≤ d)
    (h4 : d ≤ daysInMonth y m) (h5 : 1 ≤ y) (h6 : y ≤ 9999) :
    (Date.mk y m d).pyValid :=
  ⟨⟨h1, h2, h3, h4⟩, h5, h6⟩

theorem mkDate_some (y : Int) (m d : Nat) (x : Date) (h : mkDate y m d = some x) :
    x = ⟨y, m, d⟩ ∧ (Date.mk y m d).pyValid := by
  unfold mkDate at h
  split at h
  · exact ⟨(Option.some_inj.mp h).symm, by assumption⟩
  · cases h

/-- The end-resolution step of `parse_window` never fails and produces a
valid end at or after the start, provided the start is a valid date with
year at most 9997. -/
theorem resolveEnd_some (y : Int) (m sd edn : Nat)
    (hval : (Date.mk y m sd).pyValid) (hy : y ≤ 9997) :
    ∃ e, resolveEnd ⟨y, m, sd⟩ m edn = some e ∧ e.pyValid ∧
      dateLe ⟨y, m, sd⟩ e = true := by
  have hval' := hval
  simp only [Date.pyValid, Date.validYMD] at hval'
  obtain ⟨⟨hm1, hm2, hd1, hd2⟩, hy1, _⟩ := hval'
  have hdimpos := daysInMonth_pos y m hm1 hm2
  have hvend : (Date.mk y m (daysInMonth y m)).validYMD :=
    validYMD_mk y m (daysInMonth y m) hm1 hm2 (by omega) (le_refl _)
  have hmono1 : (Date.mk y m sd).toOrdinal ≤ (Date.mk y m (daysInMonth y m)).toOrdinal := by
    simp only [Date.toOrdinal]
    omega
  cases hmk : mkDate y m edn with
  | some e0 =>
    obtain ⟨he0, hval0⟩ := mkDate_some y m edn e0 hmk
    subst he0
    by_cases hlt : dateLt ⟨y, m, edn⟩ ⟨y, m, sd⟩ = true
    · -- rolled to the next month
      have hval0' := hval0
      simp only [Date.pyValid, Date.validYMD] at hval0'
      obtain ⟨⟨_, _, hed1, hed2⟩, _, _⟩ := hval0'
      have hsucc := toOrdinal_succDay ⟨y, m, daysInMonth y m⟩ hvend
      by_cases h12 : m = 12
      · subst h12
        rw [succDay_year_end y] at hsucc
        have hnval : 1 ≤ y + 1 ∧ y + 1 ≤ 9998 := by omega
        cases hmk2 : mkDate (y + 1) 1 edn with
        | some e1 =>
          obtain ⟨he1, hval1⟩ := mkDate_some (y + 1) 1 edn e1 hmk2
          subst he1
          have hval1' := hval1
          simp only [Date.pyValid, Date.validYMD] at hval1'
          refine ⟨⟨y + 1, 1, edn⟩, ?_, hval1, ?_⟩
          · simp only [resolveEnd, hmk, Option.bind_eq_bind, Option.some_bind]
            rw [if_pos hlt]
            norm_num [hmk2]
          · have hmono2 : (Date.mk (y + 1) 1 1).toOrdinal ≤
                (Date.mk (y + 1) 1 edn).toOrdinal := by
              simp only [Date.toOrdinal]
              omega
            simp only [dateLe, decide_eq_true_eq]
            omega
        | none =>
          have hlast := lastDayFormula_eq (y + 1) 1 (by omega) (by omega) (by omega) (by omega)
          have hdp := daysInMonth_pos (y + 1) 1 (by omega) (by omega)
          refine ⟨⟨y + 1, 1, daysInMonth (y + 1) 1⟩, ?_, ?_, ?_⟩
          · simp only [resolveEnd, hmk, Option.bind_eq_bind, Option.some_bind]
            rw [if_pos hlt]
            norm_num [hmk2, hlast]
          · exact pyValid_mk (y + 1) 1 (daysInMonth (y + 1) 1) (by omega) (by omega)
              (by omega) (le_refl _) (by omega) (by omega)
          · have hmono2 : (Date.mk (y + 1) 1 1).toOrdinal ≤
                (Date.mk (y + 1) 1 (daysInMonth (y + 1) 1)).toOrdinal := by
              simp only [Date.toOrdinal]
              omega
            simp only [dateLe, decide_eq_true_eq]
            omega
      · have hm11 : m ≤ 11 := by omega
        rw [succDay_month_end y m hm1 hm11] at hsucc
        cases hmk2 : mkDate y (m + 1) edn with
        | some e1 =>
          obtain ⟨he1, hval1⟩ := mkDate_some y (m + 1) edn e1 hmk2
          subst he1
          have hval1' := hval1
          simp only [Date.pyValid, Date.validYMD] at hval1'
          refine ⟨⟨y, m + 1, edn⟩, ?_, hval1, ?_⟩
          · simp only [resolveEnd, hmk, Option.bind_eq_bind, Option.some_bind]
            rw [if_pos hlt]
            simp only [if_neg h12]
            rw [show y + 0 = y by ring, hmk2]
          · have hmono2 : (Date.mk y (m + 1) 1).toOrdinal ≤
                (Date.mk y (m + 1) edn).toOrdinal := by
              simp only [Date.toOrdinal]
              omega
            simp only [dateLe, decide_eq_true_eq]
            omega
        | none =>
          have hlast := lastDayFormula_eq y (m + 1) (by omega) (by omega) (by omega) (by omega)
          have hdp := daysInMonth_pos y (m + 1) (by omega) (by omega)
          refine ⟨⟨y, m + 1, daysInMonth y (m + 1)⟩, ?_, ?_, ?_⟩
          · simp only [resolveEnd, hmk, Option.bind_eq_bind, Option.some_bind]
            rw [if_pos hlt]
            simp only [if_neg h12]
            rw [show y + 0 = y by ring, hmk2, hlast]
          · exact pyValid_mk y (m + 1) (daysInMonth y (m + 1)) (by omega) (by omega)
              (by omega) (le_refl _) (by omega) (by omega)
          · have hmono2 : (Date.mk y (m + 1) 1).toOrdinal ≤
                (Date.mk y (m + 1) (daysInMonth y (m + 1))).toOrdinal := by
              simp only [Date.toOrdinal]
              omega
            simp only [dateLe, decide_eq_true_eq]
            omega
    · -- end at or after start: keep it
      refine ⟨⟨y, m, edn⟩, ?_, hval0, ?_⟩
      · simp only [resolveEnd, hmk, Option.bind_eq_bind, Option.some_bind]
        rw [if_neg hlt]
        rfl
      · simp only [dateLt, decide_eq_true_eq] at hlt
        simp only [dateLe, decide_eq_true_eq]
        omega
  | none =>
    -- invalid end day in the start month: clamp to the month's last day
    have hlast := lastDayFormula_eq y m hm1 hm2 (by omega) (by omega)
    have hnotlt : ¬dateLt ⟨y, m, daysInMonth y m⟩ ⟨y, m, sd⟩ = true := by
      simp only [dateLt, decide_eq_true_eq]
      omega
    refine ⟨⟨y, m, daysInMonth y m⟩, ?_, ?_, ?_⟩
    · simp only [resolveEnd, hmk, hlast, Option.bind_eq_bind, Option.some_bind]
      rw [if_neg hnotlt]
      rfl
    · exact pyValid_mk y m (daysInMonth y m) hm1 hm2 (by omega) (le_refl _)
        (by omega) (by omega)
    · simp only [dateLe, decide_eq_true_eq]
      omega

theorem mkDate_of_pyValid (y : Int) (m d : Nat) (h : (Date.mk y m d).pyValid) :
    mkDate y m d = some ⟨y, m, d⟩ := by
  unfold mkDate
  rw [if_pos h]

/-- Full behaviour of `parse_window` when the window phrase matches:
the start is the matched month/day with the rollover-resolved year, the
end resolution succeeds, and the window is ordered. -/
theorem parse_window_match_master (text : Chars) (now : Date) (st ed : Chars)
    (hsearch : windowSearchCh text = some (st, ed))
    (hnow : now.pyValid) (hyr2 : 2 ≤ now.year) (hyr3 : now.year ≤ 9996)
    (s0 : Date)
    (hs0 : mkDate now.year ((month_from_text st).getD now.month)
      (natOfDigits (digitsOf st)) = some s0)
    (h1v : s0.toOrdinal - now.toOrdinal > 120 →
      (Date.mk (now.year - 1) ((month_from_text st).getD now.month)
        (natOfDigits (digitsOf st))).pyValid)
    (h2v : now.toOrdinal - s0.toOrdinal > 250 →
      (Date.mk (now.year + 1) ((month_from_text st).getD now.month)
        (natOfDigits (digitsOf st))).pyValid) :
    ∃ y' e, parse_window text now =
        some (⟨y', (month_from_text st).getD now.month, natOfDigits (digitsOf st)⟩, e) ∧
      (Date.mk y' ((month_from_text st).getD now.month)
        (natOfDigits (digitsOf st))).pyValid ∧
      e.pyValid ∧
      dateLe ⟨y', (month_from_text st).getD now.month, natOfDigits (digitsOf st)⟩ e = true ∧
      (s0.toOrdinal - now.toOrdinal > 120 → y' = now.year - 1) ∧
      (now.toOrdinal - s0.toOrdinal > 250 → y' = now.year + 1) ∧
      (s0.toOrdinal - now.toOrdinal ≤ 120 → now.toOrdinal - s0.toOrdinal ≤ 250 →
        y' = now.year) ∧
      resolveEnd ⟨y', (month_from_text st).getD now.month, natOfDigits (digitsOf st)⟩
        ((month_from_text st).getD now.month) (natOfDigits (digitsOf ed)) = some e := by
  obtain ⟨hs0eq, hs0val⟩ :=
    mkDate_some now.year ((month_from_text st).getD now.month)
      (natOfDigits (digitsOf st)) s0 hs0
  subst hs0eq
  simp only [parse_window, hsearch, hs0, Option.bind_eq_bind, Option.some_bind]
  by_cases c1 : (Date.mk now.year ((month_from_text st).getD now.month)
      (natOfDigits (digitsOf st))).toOrdinal - now.toOrdinal > 120
  · have hval1 := h1v c1
    have hmk1 := mkDate_of_pyValid _ _ _ hval1
    rw [if_pos c1, hmk1]
    simp only [Option.some_bind]
    have hspan := ord_span_year now.year ((month_from_text st).getD now.month)
      (natOfDigits (digitsOf st)) hs0val.1 hval1.1
    have c2false : ¬(now.toOrdinal -
        (Date.mk (now.year - 1) ((month_from_text st).getD now.month)
          (natOfDigits (digitsOf st))).toOrdinal > 250) := by
      omega
    rw [if_neg c2false]
    simp only [Option.pure_def, Option.some_bind]
    obtain ⟨e, he, hev, hle⟩ := resolveEnd_some (now.year - 1)
      ((month_from_text st).getD now.month) (natOfDigits (digitsOf st))
      (natOfDigits (digitsOf ed)) hval1 (by omega)
    rw [he]
    exact ⟨now.year - 1, e, rfl, hval1, hev, hle,
      fun _ => rfl, fun hc => absurd hc (by omega), fun hc _ => absurd c1 (by omega), he⟩
  · rw [if_neg c1]
    simp only [Option.pure_def, Option.some_bind]
    by_cases c2 : now.toOrdinal -
        (Date.mk now.year ((month_from_text st).getD now.month)
          (natOfDigits (digitsOf st))).toOrdinal > 250
    · have hval2 := h2v c2
      have hmk2 := mkDate_of_pyValid _ _ _ hval2
      rw [if_pos c2, hmk2]
      simp only [Option.some_bind]
      obtain ⟨e, he, hev, hle⟩ := resolveEnd_some (now.year + 1)
        ((month_from_text st).getD now.month) (natOfDigits (digitsOf st))
        (natOfDigits (digitsOf ed)) hval2 (by omega)
      rw [he]
      exact ⟨now.year + 1, e, rfl, hval2, hev, hle,
        fun hc => absurd hc c1, fun _ => rfl, fun _ hc => absurd c2 (by omega), he⟩
    · rw [if_neg c2]
      obtain ⟨e, he, hev, hle⟩ := resolveEnd_some now.year
        ((month_from_text st).getD now.month) (natOfDigits (digitsOf st))
        (natOfDigits (digitsOf ed)) hs0val (by omega)
      rw [he]
      exact ⟨now.year, e, rfl, hs0val, hev, hle,
        fun hc => absurd hc c1, fun hc => absurd hc c2, fun _ _ => rfl, he⟩

theorem weekday_bounds (d : Date) : 0 ≤ d.weekday ∧ d.weekday < 7 := by
  unfold Date.weekday
  omega

/-- The default-window branch: `get_week_start` succeeds and lands
`weekday(now)` days before `now`. -/
theorem weekStart_spec (now : Date) (h : now.validYMD) (h2 : 2 ≤ now.year)
    (h3 : now.year ≤ 9999) :
    get_week_start now = some (predIter now.weekday.toNat now) ∧
      (predIter now.weekday.toNat now).validYMD ∧
      (predIter now.weekday.toNat now).toOrdinal = now.toOrdinal - now.weekday ∧
      1 ≤ (predIter now.weekday.toNat now).year ∧
      (predIter now.weekday.toNat now).year ≤ now.year := by
  have hwb := weekday_bounds now
  have hw : (now.weekday.toNat : Int) = now.weekday := Int.toNat_of_nonneg hwb.1
  obtain ⟨hsub, hv, ho⟩ := subDays_some now now.weekday.toNat h h2 h3 (by omega)
  rw [hw] at ho
  have hup := toOrdinal_upper now h
  have hlo := toOrdinal_lower now h
  have hyle : (predIter now.weekday.toNat now).year ≤ now.year :=
    year_le_of_ord _ now.year hv (by omega)
  have hstep := daysBeforeYear_step now.year
  have hdby1 : daysBeforeYear 1 = 0 := by unfold daysBeforeYear; decide
  have hmono : daysBeforeYear 1 ≤ daysBeforeYear (now.year - 1) := by
    have := daysBeforeYear_mono (show (1 : Int) ≤ now.year - 1 by omega)
    omega
  have hyge : 1 ≤ (predIter now.weekday.toNat now).year :=
    year_ge_of_ord _ 1 hv (by omega)
  exact ⟨hsub, hv, ho, hyge, hyle⟩

/-- C5: for every document without a `schedule for` window phrase,
`parse_window` returns `start` = the most recent Monday on or before the
supplied `now` (as a calendar date) and `end` = `start + 6 days`:
the start has weekday Monday, lies at most 6 days back from `now`, and
the end is ordinal-exactly 6 days after it. -/
theorem claim_C5 (text : Chars) (now : Date) (hs : windowSearchCh text = none)
    (hv : now.pyValid) (h2 : 2 ≤ now.year) (h3 : now.year ≤ 9998) :
    ∃ s e, parse_window text now = some (s, e) ∧
      s.weekday = 0 ∧ dateLe s now = true ∧ now.toOrdinal - s.toOrdinal ≤ 6 ∧
      e.toOrdinal = s.toOrdinal + 6 := by
  obtain ⟨hvymd, hy1, hy9⟩ := hv
  obtain ⟨hws, hsv, hso, hsy1, hsy2⟩ := weekStart_spec now hvymd h2 (by omega)
  obtain ⟨hadd, hev, heo⟩ :=
    addDays_some (predIter now.weekday.toNat now) 6 hsv hsy1 (by omega) (by omega)
  refine ⟨predIter now.weekday.toNat now, succIter 6 (predIter now.weekday.toNat now),
    ?_, ?_, ?_, ?_, ?_⟩
  · simp only [parse_window, hs, hws, Option.bind_eq_bind, Option.some_bind, hadd,
      Option.pure_def]
  · have hwb := weekday_bounds now
    simp only [Date.weekday] at *
    omega
  · simp only [dateLe, decide_eq_true_eq]
    have hwb := weekday_bounds now
    omega
  · have hwb := weekday_bounds now
    omega
  · omega

/-- C5 witness: the concrete document `"x"` (no window phrase) with `now`
= Wednesday 2024-05-08. -/
theorem claim_C5_witness :
    ∃ s e, parse_window "x".data ⟨2024, 5, 8⟩ = some (s, e) ∧
      s.weekday = 0 ∧ dateLe s ⟨2024, 5, 8⟩ = true ∧
      (Date.mk 2024 5 8).toOrdinal - s.toOrdinal ≤ 6 ∧
      e.toOrdinal = s.toOrdinal + 6 :=
  claim_C5 "x".data ⟨2024, 5, 8⟩ (by decide) (by decide) (by decide) (by decide)

/-- C6: year rollover in `parse_window`.  For a matched window header, let
`s0` be the start resolved assuming the current year.  If `s0` lies more
than 120 days in the future relative to `now`, the window start is the
same month/day in the previous year; if `s0` lies more than 250 days in
the past, it is the same month/day in the next year (provided the shifted
dates exist in the Python `date` range). -/
theorem claim_C6 (text : Chars) (now : Date) (st ed : Chars)
    (hsearch : windowSearchCh text = some (st, ed))
    (hnow : now.pyValid) (hyr2 : 2 ≤ now.year) (hyr3 : now.year ≤ 9996)
    (s0 : Date)
    (hs0 : mkDate now.year ((month_from_text st).getD now.month)
      (natOfDigits (digitsOf st)) = some s0) :
    (s0.toOrdinal - now.toOrdinal > 120 →
      (Date.mk (now.year - 1) ((month_from_text st).getD now.month)
        (natOfDigits (digitsOf st))).pyValid →
      ∃ e, parse_window text now =
        some (⟨now.year - 1, (month_from_text st).getD now.month,
          natOfDigits (digitsOf st)⟩, e)) ∧
    (now.toOrdinal - s0.toOrdinal > 250 →
      (Date.mk (now.year + 1) ((month_from_text st).getD now.month)
        (natOfDigits (digitsOf st))).pyValid →
      ∃ e, parse_window text now =
        some (⟨now.year + 1, (month_from_text st).getD now.month,
          natOfDigits (digitsOf st)⟩, e)) := by
  constructor
  · intro h120 hval1
    obtain ⟨y', e, hpw, _, _, _, himp1, _, _, _⟩ :=
      parse_window_match_master text now st ed hsearch hnow hyr2 hyr3 s0 hs0
        (fun _ => hval1) (fun hc => absurd h120 (by omega))
    rw [himp1 h120] at hpw
    exact ⟨e, hpw⟩
  · intro h250 hval2
    obtain ⟨y', e, hpw, _, _, _, _, himp2, _, _⟩ :=
      parse_window_match_master text now st ed hsearch hnow hyr2 hyr3 s0 hs0
        (fun hc => absurd h250 (by omega)) (fun _ => hval2)
    rw [himp2 h250] at hpw
    exact ⟨e, hpw⟩

/-- C6 witness: the past-rollover hypothesis set discharged concretely at
`now` = 2024-01-15 with header text naming December 30 (which lies more
than 120 days in the future, so the previous-year branch applies). -/
theorem claim_C6_witness :
    ((Date.mk 2024 12 30).toOrdinal - (Date.mk 2024 1 15).toOrdinal > 120 →
      (Date.mk 2023 12 30).pyValid →
      ∃ e, parse_window "schedule for December 30 - 5".data ⟨2024, 1, 15⟩ =
        some (⟨2023, 12, 30⟩, e)) ∧
    ((Date.mk 2024 1 15).toOrdinal - (Date.mk 2024 12 30).toOrdinal > 250 →
      (Date.mk 2025 12 30).pyValid →
      ∃ e, parse_window "schedule for December 30 - 5".data ⟨2024, 1, 15⟩ =
        some (⟨2025, 12, 30⟩, e)) :=
  claim_C6 "schedule for December 30 - 5".data ⟨2024, 1, 15⟩
    "December 30".data "5".data (by decide) (by decide) (by decide) (by decide)
    ⟨2024, 12, 30⟩ (by decide)

theorem c1_resolveEnd (y : Int) (h1 : 1 ≤ y) (h2 : y ≤ 9999) :
    resolveEnd ⟨y, 5, 5⟩ 5 11 = some ⟨y, 5, 11⟩ := by
  have hmk : mkDate y 5 11 = some ⟨y, 5, 11⟩ :=
    mkDate_eq y 5 11 (by omega) (by omega) (by omega)
      (by rw [show daysInMonth y 5 = 31 from rfl]; omega) h1 h2
  have hlt : dateLt ⟨y, 5, 11⟩ ⟨y, 5, 5⟩ = false := by
    simp only [dateLt, decide_eq_false_iff_not, not_lt, Date.toOrdinal]
    omega
  simp [resolveEnd, hmk, hlt]

/-- The window of the end-to-end scenario document: May 5 - May 11 of the
rollover-resolved year. -/
theorem c1_window (now : Date) (h1 : now.pyValid) (h2 : 2 ≤ now.year)
    (h3 : now.year ≤ 9996) :
    ∃ y, parse_window c1Body now = some (⟨y, 5, 5⟩, ⟨y, 5, 11⟩) ∧ 1 ≤ y ∧ y ≤ 9999 := by
  have hsearch : windowSearchCh c1Body = some ("May 5".data, "11".data) := rfl
  have hmo : (month_from_text "May 5".data).getD now.month = 5 := rfl
  have hsd : natOfDigits (digitsOf "May 5".data) = 5 := rfl
  have hed : natOfDigits (digitsOf "11".data) = 11 := rfl
  have hs0 : mkDate now.year ((month_from_text "May 5".data).getD now.month)
      (natOfDigits (digitsOf "May 5".data)) = some ⟨now.year, 5, 5⟩ := by
    rw [hmo, hsd]
    exact mkDate_eq now.year 5 5 (by omega) (by omega) (by omega)
      (by rw [show daysInMonth now.year 5 = 31 from rfl]; omega) h1.2.1 h1.2.2
  obtain ⟨y', e, hpw, hval, _, _, _, _, _, hre⟩ :=
    parse_window_match_master c1Body now "May 5".data "11".data hsearch h1 h2 h3
      ⟨now.year, 5, 5⟩ hs0
      (fun _ => by
        rw [hmo, hsd]
        exact pyValid_mk (now.year - 1) 5 5 (by omega) (by omega) (by omega)
          (by rw [show daysInMonth (now.year - 1) 5 = 31 from rfl]; omega)
          (by omega) (by omega))
      (fun _ => by
        rw [hmo, hsd]
        exact pyValid_mk (now.year + 1) 5 5 (by omega) (by omega) (by omega)
          (by rw [show daysInMonth (now.year + 1) 5 = 31 from rfl]; omega)
          (by omega) (by omega))
  have hy'1 : 1 ≤ y' := hval.2.1
  have hy'2 : y' ≤ 9999 := hval.2.2
  rw [hmo, hsd] at hpw
  rw [hmo, hsd, hed] at hre
  have heq : e = ⟨y', 5, 11⟩ :=
    Option.some_inj.mp (hre.symm.trans (c1_resolveEnd y' hy'1 hy'2))
  rw [heq] at hpw
  exact ⟨y', hpw, hy'1, hy'2⟩

/-- The line walk over the scenario document: one Monday row for Jeshad
(with the `WORKSHOP setup` task) and one Tuesday row for Ana. -/
theorem c1_loop (y : Int) (h1 : 1 ≤ y) (h2 : y ≤ 9999) :
    lineLoop ⟨y, 5, 5⟩ ⟨none, none⟩ ((splitLinesCh c1Body).map stripChars) =
      some [⟨"WORKSHOP setup".data, "Monday".data, "9:00 AM - 5:00 PM".data,
              "Tempe".data, "Jeshad".data, "WORKSHOP setup".data, ⟨y, 5, 5⟩⟩,
            ⟨"Mesa 10:00 AM - 2:00 PM".data, "Tuesday".data, "10:00 AM - 2:00 PM".data,
              "Mesa".data, "Ana".data, [], ⟨y, 5, 6⟩⟩] := by
  have hr2 : resolveHeaderDate ⟨y, 5, 5⟩ 5 = some ⟨y, 5, 5⟩ := by
    unfold resolveHeaderDate
    rw [show mkDate (Date.mk y 5 5).year (Date.mk y 5 5).month 5 = some ⟨y, 5, 5⟩ from
      mkDate_eq y 5 5 (by omega) (by omega) (by omega)
        (by rw [show daysInMonth y 5 = 31 from rfl]; omega) h1 h2]
  have hr3 : resolveHeaderDate ⟨y, 5, 5⟩ 6 = some ⟨y, 5, 6⟩ := by
    unfold resolveHeaderDate
    rw [show mkDate (Date.mk y 5 5).year (Date.mk y 5 5).month 6 = some ⟨y, 5, 6⟩ from
      mkDate_eq y 5 6 (by omega) (by omega) (by omega)
        (by rw [show daysInMonth y 5 = 31 from rfl]; omega) h1 h2]
  have hstep1 : stepLine ⟨y, 5, 5⟩ ⟨none, none⟩ "Schedule for May 5 - 11".data =
      some (⟨none, none⟩, []) :=
    stepLine_plain_skip _ ⟨none, none⟩ _ rfl (Or.inl rfl)
  have hstep2 : stepLine ⟨y, 5, 5⟩ ⟨none, none⟩
      "5 Monday 9AM-5PM Tempe Jeshad WORKSHOP setup".data =
      some (⟨some ⟨y, 5, 5⟩, some "Monday".data⟩,
        [⟨"WORKSHOP setup".data, "Monday".data, "9:00 AM - 5:00 PM".data,
          "Tempe".data, "Jeshad".data, "WORKSHOP setup".data, ⟨y, 5, 5⟩⟩]) := by
    rw [stepLine_header_row ⟨y, 5, 5⟩ ⟨none, none⟩
      "5 Monday 9AM-5PM Tempe Jeshad WORKSHOP setup".data 5 "Monday".data
      " 9AM-5PM Tempe Jeshad WORKSHOP setup".data ⟨y, 5, 5⟩ "9AM".data "5PM".data
      "Tempe Jeshad WORKSHOP setup".data rfl hr2 rfl]
    rfl
  have hstep3 : stepLine ⟨y, 5, 5⟩ ⟨some ⟨y, 5, 5⟩, some "Monday".data⟩
      "6 Tuesday 10AM-2PM Mesa Ana".data =
      some (⟨some ⟨y, 5, 6⟩, some "Tuesday".data⟩,
        [⟨"Mesa 10:00 AM - 2:00 PM".data, "Tuesday".data, "10:00 AM - 2:00 PM".data,
          "Mesa".data, "Ana".data, [], ⟨y, 5, 6⟩⟩]) := by
    rw [stepLine_header_row ⟨y, 5, 5⟩ ⟨some ⟨y, 5, 5⟩, some "Monday".data⟩
      "6 Tuesday 10AM-2PM Mesa Ana".data 6 "Tuesday".data
      " 10AM-2PM Mesa Ana".data ⟨y, 5, 6⟩ "10AM".data "2PM".data
      "Mesa Ana".data rfl hr3 rfl]
    rfl
  rw [show (splitLinesCh c1Body).map stripChars =
    ["Schedule for May 5 - 11".data,
     "5 Monday 9AM-5PM Tempe Jeshad WORKSHOP setup".data,
     "6 Tuesday 10AM-2PM Mesa Ana".data] from rfl]
  simp only [lineLoop, hstep1, hstep2, hstep3, Option.bind_eq_bind, Option.some_bind,
    Option.pure_def, List.nil_append, List.append_nil, List.cons_append,
    Option.some_inj]

/-- C1: the end-to-end scenario.  For the three-line body
`Schedule for May 5 - 11` / `5 Monday 9AM-5PM Tempe Jeshad WORKSHOP setup`
/ `6 Tuesday 10AM-2PM Mesa Ana`, with name-of-interest `Jeshad` and the
name filter enabled, `parse_rows` returns exactly one row: date = May 5 of
the rollover-resolved year (the window start), time range
`9:00 AM - 5:00 PM`, location `Tempe`, people `Jeshad`, task
`WORKSHOP setup`, title `WORKSHOP setup`; the Tuesday row is excluded
because `Ana` does not contain the name. -/
theorem claim_C1 (now : Date) (h1 : now.pyValid) (h2 : 2 ≤ now.year)
    (h3 : now.year ≤ 9996) :
    ∃ y, parse_window c1Body now = some (⟨y, 5, 5⟩, ⟨y, 5, 11⟩) ∧
      parse_rows [] c1Body true "Jeshad".data now =
        some [⟨"WORKSHOP setup".data, "Monday".data, "9:00 AM - 5:00 PM".data,
          "Tempe".data, "Jeshad".data, "WORKSHOP setup".data, ⟨y, 5, 5⟩⟩] := by
  obtain ⟨y, hpw, hy1, hy2⟩ := c1_window now h1 h2 h3
  refine ⟨y, hpw, ?_⟩
  have hloop := c1_loop y hy1 hy2
  have hd11 : dateLe ⟨y, 5, 5⟩ ⟨y, 5, 5⟩ = true := by
    simp [dateLe]
  have hd12 : dateLe ⟨y, 5, 5⟩ ⟨y, 5, 11⟩ = true := by
    simp only [dateLe, decide_eq_true_eq, Date.toOrdinal]
    omega
  simp only [parse_rows, show pickWindowText [] c1Body = c1Body from rfl, hpw,
    Option.bind_eq_bind, Option.some_bind, hloop,
    show nameMatches "Jeshad".data "Jeshad".data = true from rfl,
    show nameMatches "Jeshad".data "Ana".data = false from rfl,
    List.filter, windowFilter, hd11, hd12, dedupRows, dedupAux,
    Option.pure_def, Option.some_inj, Bool.and_self, if_true]
  rfl

/-- C1 witness: the scenario applied at `now` = 2024-05-01 (no rollover
shift; the resolved year is 2024). -/
theorem claim_C1_witness :
    ∃ y, parse_window c1Body ⟨2024, 5, 1⟩ = some (⟨y, 5, 5⟩, ⟨y, 5, 11⟩) ∧
      parse_rows [] c1Body true "Jeshad".data ⟨2024, 5, 1⟩ =
        some [⟨"WORKSHOP setup".data, "Monday".data, "9:00 AM - 5:00 PM".data,
          "Tempe".data, "Jeshad".data, "WORKSHOP setup".data, ⟨y, 5, 5⟩⟩] :=
  claim_C1 ⟨2024, 5, 1⟩ (by decide) (by decide) (by decide)

/-- C2 counterexample: with the body `"schedule for February 30 - 5"` the
matched start day 30 is invalid for February, and `parse_window` line 189
constructs `date(now.year, month, start_day)` outside any `try`, so the
`ValueError` propagates (modelled by `none`) — refuting "parse_window
never raises". -/
theorem claim_C2_counterexample :
    parse_window "schedule for February 30 - 5".data ⟨2024, 6, 1⟩ = none := by
  decide

/-- C2 amended: `parse_window` can raise when the matched start day/month
do not form a valid date; provided the matched start forms a valid Python
date in the current year and in the shifted year (when a rollover shift
applies) — and `now` itself is a valid date not at the extreme ends of the
representable year range — `parse_window` returns a pair of valid calendar
dates with `start ≤ end`; with no window phrase this needs no extra
condition. -/
theorem claim_C2 (text : Chars) (now : Date) (hnow : now.pyValid)
    (hyr2 : 2 ≤ now.year) (hyr3 : now.year ≤ 9996)
    (hvalids : ∀ st ed, windowSearchCh text = some (st, ed) →
      ∀ y', (y' = now.year ∨ y' = now.year - 1 ∨ y' = now.year + 1) →
        (Date.mk y' ((month_from_text st).getD now.month)
          (natOfDigits (digitsOf st))).pyValid) :
    ∃ s e, parse_window text now = some (s, e) ∧ s.pyValid ∧ e.pyValid ∧
      dateLe s e = true := by
  obtain ⟨hvymd, hy1, hy9⟩ := hnow
  cases hsearch : windowSearchCh text with
  | none =>
    obtain ⟨hws, hsv, hso, hsy1, hsy2⟩ := weekStart_spec now hvymd hyr2 (by omega)
    obtain ⟨hadd, hev, heo⟩ :=
      addDays_some (predIter now.weekday.toNat now) 6 hsv hsy1 (by omega) (by omega)
    refine ⟨predIter now.weekday.toNat now, succIter 6 (predIter now.weekday.toNat now),
      ?_, ⟨hsv, hsy1, by omega⟩, ⟨hev, ?_, ?_⟩, ?_⟩
    · simp only [parse_window, hsearch, hws, Option.bind_eq_bind, Option.some_bind,
        hadd, Option.pure_def]
    · refine year_ge_of_ord _ 1 hev ?_
      have hdby1 : daysBeforeYear 1 = 0 := by unfold daysBeforeYear; decide
      have hlo := toOrdinal_lower (predIter now.weekday.toNat now) hsv
      have hmono : daysBeforeYear 1 ≤ daysBeforeYear (predIter now.weekday.toNat now).year := by
        have := daysBeforeYear_mono
          (show (1 : Int) ≤ (predIter now.weekday.toNat now).year by omega)
        omega
      omega
    · refine year_le_of_ord _ 9999 hev ?_
      have hup := toOrdinal_upper (predIter now.weekday.toNat now) hsv
      have hmono : daysBeforeYear ((predIter now.weekday.toNat now).year + 1) + 365 * 3 ≤
          daysBeforeYear (9999 + 1) := by
        have h := daysBeforeYear_mono
          (show (predIter now.weekday.toNat now).year + 1 ≤ 9999 + 1 by omega)
        omega
      omega
    · simp only [dateLe, decide_eq_true_eq]
      omega
  | some p =>
    obtain ⟨st, ed⟩ := p
    have hval0 := hvalids st ed hsearch now.year (Or.inl rfl)
    obtain ⟨y', e, hpw, hsval, hev, hle, _, _, _, _⟩ :=
      parse_window_match_master text now st ed hsearch ⟨hvymd, hy1, hy9⟩ hyr2 hyr3
        _ (mkDate_of_pyValid _ _ _ hval0)
        (fun _ => hvalids st ed hsearch (now.year - 1) (Or.inr (Or.inl rfl)))
        (fun _ => hvalids st ed hsearch (now.year + 1) (Or.inr (Or.inr rfl)))
    exact ⟨_, e, hpw, hsval, hev, hle⟩

/-- C2 witness: the amended statement applied at the concrete document
`"x"` (no window phrase) and `now` = 2024-05-08. -/
theorem claim_C2_witness :
    ∃ s e, parse_window "x".data ⟨2024, 5, 8⟩ = some (s, e) ∧ s.pyValid ∧
      e.pyValid ∧ dateLe s e = true :=
  claim_C2 "x".data ⟨2024, 5, 8⟩ (by decide) (by decide) (by decide)
    (by intro st ed h y' hy; rw [show windowSearchCh "x".data = none from rfl] at h; cases h)

/-- C7: every row returned by `parse_rows` has a date within the resolved
window, inclusive at both ends: membership in the output implies
`start ≤ date ≤ end`; a row dated exactly on the window start passes the
window filter; a row dated exactly one day after the window end is
discarded by it. -/
theorem claim_C7 :
    (∀ subject body fb name now s e rows,
      parse_window (pickWindowText subject body) now = some (s, e) →
      parse_rows subject body fb name now = some rows →
      ∀ r ∈ rows, dateLe s r.date = true ∧ dateLe r.date e = true) ∧
    (∀ (ws we : Date) (r : ShiftRow), dateLe ws we = true → r.date = ws →
      windowFilter ws we [r] = [r]) ∧
    (∀ (ws we e1 : Date) (r : ShiftRow), we.validYMD → addDays we 1 = some e1 →
      r.date = e1 → windowFilter ws we [r] = []) := by
  refine ⟨?_, ?_, ?_⟩
  · intro subject body fb name now s e rows hpw hrows r hr
    cases hl : lineLoop s ⟨none, none⟩ ((splitLinesCh body).map stripChars) with
    | none =>
      simp [parse_rows, hpw, hl] at hrows
    | some rows0 =>
      simp only [parse_rows, hpw, Option.bind_eq_bind, Option.some_bind, hl,
        Option.pure_def, Option.some_inj] at hrows
      rw [← hrows] at hr
      have hmem : r ∈ windowFilter s e
          (if fb then rows0.filter (fun r => nameMatches name r.people) else rows0) :=
        (dedupAux_sublist [] _).mem hr
      have hpred := (List.mem_filter.mp hmem).2
      exact ⟨(Bool.and_eq_true_iff.mp hpred).1, (Bool.and_eq_true_iff.mp hpred).2⟩
  · intro ws we r hle hrd
    have h1 : dateLe ws r.date = true := by rw [hrd]; simp [dateLe]
    have h2 : dateLe r.date we = true := by rw [hrd]; exact hle
    simp [windowFilter, h1, h2]
  · intro ws we e1 r hv hadd hrd
    have hspec := succIter_spec 1 we hv
    have he1 : e1 = succIter 1 we := by
      simp only [addDays] at hadd
      split at hadd
      · exact (Option.some_inj.mp hadd).symm
      · cases hadd
    have h2 : dateLe r.date we = false := by
      rw [hrd, he1]
      simp only [dateLe, decide_eq_false_iff_not, not_le, hspec.2]
      omega
    simp [windowFilter, h2]

/-- C7 witness: the three conjuncts applied at concrete inputs: a concrete
parse with its resolved window, a singleton row dated on the window start,
and a singleton row dated one day past the window end. -/
theorem claim_C7_witness :
    (∀ r ∈ ([] : List ShiftRow),
      dateLe ⟨2024, 5, 6⟩ r.date = true ∧ dateLe r.date ⟨2024, 5, 12⟩ = true) ∧
    windowFilter ⟨2024, 5, 6⟩ ⟨2024, 5, 12⟩
      [⟨[], [], [], [], [], [], ⟨2024, 5, 6⟩⟩] = [⟨[], [], [], [], [], [], ⟨2024, 5, 6⟩⟩] ∧
    windowFilter ⟨2024, 5, 6⟩ ⟨2024, 5, 12⟩
      [⟨[], [], [], [], [], [], ⟨2024, 5, 13⟩⟩] = [] :=
  ⟨claim_C7.1 [] "x".data false "J".data ⟨2024, 5, 8⟩ ⟨2024, 5, 6⟩ ⟨2024, 5, 12⟩ []
      (by decide) (by decide),
   claim_C7.2.1 ⟨2024, 5, 6⟩ ⟨2024, 5, 12⟩ ⟨[], [], [], [], [], [], ⟨2024, 5, 6⟩⟩
      (by decide) rfl,
   claim_C7.2.2 ⟨2024, 5, 6⟩ ⟨2024, 5, 12⟩ ⟨2024, 5, 13⟩
      ⟨[], [], [], [], [], [], ⟨2024, 5, 13⟩⟩ (by decide) (by decide) rfl⟩

/-- C10: `split_people_task` matches task keywords as substrings, not
whole words: whenever (no `WORKSHOP` occurrence) the keyword regex finds
its leftmost match at index `k` — even inside a longer word — the split
happens there, people = text before, task = text from the match onward; in
particular the remainder `"Keyshawn"` (keyword `key` inside a name,
matched at index 0) yields people `""` and task `"Keyshawn"`. -/
theorem claim_C10 :
    (∀ rest k, findSub "WORKSHOP".data (upperStr rest) = none →
        keywordSearchIdx rest = some k →
        split_people_task rest =
          (stripSet puncSet (rest.take k), stripSet puncSet (rest.drop k))) ∧
    keywordSearchIdx "Keyshawn".data = some 0 ∧
    split_people_task "Keyshawn".data = ([], "Keyshawn".data) := by
  refine ⟨?_, by decide, by decide⟩
  intro rest k hw hk
  cases rest with
  | nil => simp [keywordSearchIdx] at hk
  | cons c t => simp [split_people_task, hw, hk]

/-- C10 witness: the universal conjunct applied at the concrete remainder
`"Keyshawn"`. -/
theorem claim_C10_witness :
    split_people_task "Keyshawn".data =
      (stripSet puncSet ("Keyshawn".data.take 0), stripSet puncSet ("Keyshawn".data.drop 0)) :=
  claim_C10.1 "Keyshawn".data 0 (by decide) (by decide)

end WorkScheduleBot
